import Mathlib

/-
  Verification development for the rblx-ecs entity/component/tag storage engine
  (TypeScript source in src/src/rblx-ecs.ts and src/src/utils/isEntityValid.ts).

  The TypeScript module keeps its state in JS `Map`s (keyed maps with
  insertion-order iteration; `set` overwrites in place, `delete` removes a key)
  and in JS arrays (dense `push`/`pop` arrays and sparse index-keyed arrays).
  We embed JS Maps (and sparse arrays, which behave the same for the accesses
  the source performs) as association lists with exactly those semantics, and
  dense arrays as Lean lists.
-/

set_option maxHeartbeats 1000000

namespace RblxECS

/-- Models `m.get(k)` on a JS `Map` (or `m[k]` on a sparse array):
the value at the first matching key, or `undefined` (`none`). -/
def mget {K V : Type} [DecidableEq K] : List (K × V) → K → Option V
  | [], _ => none
  | p :: m, k => if p.1 = k then some p.2 else mget m k

/-- Models `m.set(k, v)`: overwrite the entry in place if the key
is present, otherwise append a new entry at the end (JS Maps preserve the
original position of an overwritten key and append fresh keys). -/
def mset {K V : Type} [DecidableEq K] : List (K × V) → K → V → List (K × V)
  | [], k, v => [(k, v)]
  | p :: m, k, v => if p.1 = k then (k, v) :: m else p :: mset m k v

/-- Models `m.delete(k)`: drop the entry for `k` if present. -/
def mdel {K V : Type} [DecidableEq K] : List (K × V) → K → List (K × V)
  | [], _ => []
  | p :: m, k => if p.1 = k then m else p :: mdel m k

/-- The keys of the map are pairwise distinct (true of every real JS `Map`,
and preserved by `mset`/`mdel`). -/
def KeysNodup {K V : Type} (m : List (K × V)) : Prop := (m.map Prod.fst).Nodup

instance {K V : Type} [DecidableEq K] (m : List (K × V)) :
    Decidable (KeysNodup m) := by
  unfold KeysNodup
  infer_instance

section MapLemmas

variable {K V : Type} [DecidableEq K]

@[simp] theorem mget_nil (k : K) : mget ([] : List (K × V)) k = none := rfl

theorem mget_mset_self (m : List (K × V)) (k : K) (v : V) :
    mget (mset m k v) k = some v := by
  induction m with
  | nil => simp [mget, mset]
  | cons p m ih =>
    by_cases h : p.1 = k
    · simp [mget, mset, h]
    · simp [mget, mset, h, ih]

theorem mget_mset_ne (m : List (K × V)) {k k' : K} (v : V) (h : k' ≠ k) :
    mget (mset m k v) k' = mget m k' := by
  induction m with
  | nil => simp [mget, mset, Ne.symm h]
  | cons p m ih =>
    by_cases hp : p.1 = k
    · simp [mget, mset, hp, h, Ne.symm h]
    · by_cases hp' : p.1 = k'
      · simp [mget, mset, hp, hp', h, Ne.symm h]
      · simp [mget, mset, hp, hp', ih]

theorem mget_mdel_ne (m : List (K × V)) {k k' : K} (h : k' ≠ k) :
    mget (mdel m k) k' = mget m k' := by
  induction m with
  | nil => simp [mdel]
  | cons p m ih =>
    by_cases hp : p.1 = k
    · simp [mget, mdel, hp, h, Ne.symm h]
    · by_cases hp' : p.1 = k'
      · simp [mget, mdel, hp, hp', h, Ne.symm h]
      · simp [mget, mdel, hp, hp', ih]

theorem mget_some_mem_keys {m : List (K × V)} {k : K} {v : V}
    (h : mget m k = some v) : k ∈ m.map Prod.fst := by
  induction m with
  | nil => simp [mget] at h
  | cons p m ih =>
    by_cases hp : p.1 = k
    · simp [hp]
    · simp [mget, hp] at h
      simp [ih h]

theorem mget_eq_none_of_not_mem_keys {m : List (K × V)} {k : K}
    (h : k ∉ m.map Prod.fst) : mget m k = none := by
  induction m with
  | nil => rfl
  | cons p m ih =>
    simp only [List.map_cons, List.mem_cons, not_or] at h
    simp [mget, Ne.symm h.1, ih h.2]

theorem mget_mdel_self {m : List (K × V)} (hn : KeysNodup m) (k : K) :
    mget (mdel m k) k = none := by
  induction m with
  | nil => rfl
  | cons p m ih =>
    simp only [KeysNodup, List.map_cons, List.nodup_cons] at hn
    by_cases hp : p.1 = k
    · simp only [mdel, hp, if_pos rfl]
      apply mget_eq_none_of_not_mem_keys
      rw [← hp]; exact hn.1
    · simp [mget, mdel, hp, ih hn.2]

theorem keys_mset_of_mem {m : List (K × V)} {k : K} (v : V)
    (h : k ∈ m.map Prod.fst) : (mset m k v).map Prod.fst = m.map Prod.fst := by
  induction m with
  | nil => simp at h
  | cons p m ih =>
    by_cases hp : p.1 = k
    · simp [mset, hp]
    · simp only [List.map_cons, List.mem_cons] at h
      rcases h with h | h
      · exact absurd h.symm hp
      · simp [mset, hp, ih h]

theorem keys_mset_of_not_mem {m : List (K × V)} {k : K} (v : V)
    (h : k ∉ m.map Prod.fst) : (mset m k v).map Prod.fst = m.map Prod.fst ++ [k] := by
  induction m with
  | nil => simp [mset]
  | cons p m ih =>
    simp only [List.map_cons, List.mem_cons, not_or] at h
    simp [mset, Ne.symm h.1, ih h.2]

theorem keysNodup_mset {m : List (K × V)} (k : K) (v : V)
    (hn : KeysNodup m) : KeysNodup (mset m k v) := by
  by_cases h : k ∈ m.map Prod.fst
  · unfold KeysNodup
    rw [keys_mset_of_mem v h]; exact hn
  · unfold KeysNodup
    rw [keys_mset_of_not_mem v h, List.nodup_append]
    refine ⟨hn, List.nodup_singleton _, ?_⟩
    intro a ha hk
    simp only [List.mem_singleton] at hk
    exact h (hk ▸ ha)

theorem keys_mdel_sublist (m : List (K × V)) (k : K) :
    ((mdel m k).map Prod.fst).Sublist (m.map Prod.fst) := by
  induction m with
  | nil => simp [mdel]
  | cons p m ih =>
    by_cases hp : p.1 = k
    · simp only [mdel, hp, if_pos rfl, List.map_cons]
      exact (List.sublist_cons_self _ _)
    · simp only [mdel, hp, if_neg hp, List.map_cons]
      exact ih.cons₂ _

theorem keysNodup_mdel {m : List (K × V)} (k : K)
    (hn : KeysNodup m) : KeysNodup (mdel m k) :=
  List.Nodup.sublist (keys_mdel_sublist m k) hn

theorem length_mset_of_mem {m : List (K × V)} {k : K} (v : V)
    (h : k ∈ m.map Prod.fst) : (mset m k v).length = m.length := by
  induction m with
  | nil => simp at h
  | cons p m ih =>
    by_cases hp : p.1 = k
    · simp [mset, hp]
    · simp only [List.map_cons, List.mem_cons] at h
      rcases h with h | h
      · exact absurd h.symm hp
      · simp [mset, hp, ih h]

theorem length_mset_of_not_mem {m : List (K × V)} {k : K} (v : V)
    (h : k ∉ m.map Prod.fst) : (mset m k v).length = m.length + 1 := by
  induction m with
  | nil => simp [mset]
  | cons p m ih =>
    simp only [List.map_cons, List.mem_cons, not_or] at h
    simp [mset, Ne.symm h.1, ih h.2]

theorem length_mdel_of_mem {m : List (K × V)} {k : K}
    (h : k ∈ m.map Prod.fst) : (mdel m k).length + 1 = m.length := by
  induction m with
  | nil => simp at h
  | cons p m ih =>
    by_cases hp : p.1 = k
    · simp [mdel, hp]
    · simp only [List.map_cons, List.mem_cons] at h
      rcases h with h | h
      · exact absurd h.symm hp
      · simp [mdel, hp, ih h]

theorem mget_isSome_iff_mem_keys {m : List (K × V)} {k : K} :
    (mget m k).isSome ↔ k ∈ m.map Prod.fst := by
  constructor
  · intro h
    obtain ⟨v, hv⟩ := Option.isSome_iff_exists.mp h
    exact mget_some_mem_keys hv
  · intro h
    induction m with
    | nil => simp at h
    | cons p m ih =>
      by_cases hp : p.1 = k
      · simp [mget, hp]
      · simp only [List.map_cons, List.mem_cons] at h
        rcases h with h | h
        · exact absurd h.symm hp
        · simp [mget, hp, ih h]

end MapLemmas

/-- Error taxonomy of the `error(...)` calls in the source. Each constructor
stands for one family of error messages:
- `staleHandle`: "Handle is stale (generation mismatch)." / "... is stale and outdated."
- `duplicateAttachment`: "Entity already has a component of type ..." / "Entity already has this tag."
- `unregisteredType`: "No such component with the ID of ... has been found to be modified."
  (`Component.mutablyChange` on an unregistered component type)
- `missingComponent`: "This entity has no such component to be modified."
  (`Component.mutablyChange` when the entity has no slot in the store) -/
inductive ECSError : Type
  | staleHandle
  | duplicateAttachment
  | unregisteredType
  | missingComponent
deriving DecidableEq, Repr

/-- One typed sparse-set store, shared design for component payloads and tags
(source registries `components` and `tags`):
- `dense`: the dense payload array (`Array<Record<string, unknown>>`) for a
  component store, or the dense entity-id array (`Array<number>`) for a tag store;
- `sparse`: the `Map<number, number>` from entity id to dense index;
- `reverse`: the `Map<number, number>` from dense index back to entity id. -/
structure Store (P : Type) : Type where
  dense : List P
  sparse : List (Nat × Nat)
  reverse : List (Nat × Nat)
deriving DecidableEq

/-- The lazily-created fresh store (a store "is created lazily on first attach"). -/
def emptyStore (P : Type) : Store P := ⟨[], [], []⟩

/-- Store-level part of `RblxECS.Component.add` (src/src/rblx-ecs.ts:445-511):
duplicate check, then push the payload onto the dense array and record the
bidirectional mapping at the new last index. The source's "first attach"
branch builds the same state starting from the empty store. -/
def storeAddC {P : Type} (s : Store P) (e : Nat) (p : P) : Except ECSError (Store P) :=
  match mget s.sparse e with
  | some _ => .error .duplicateAttachment
  | none =>
      .ok ⟨s.dense ++ [p],
           mset s.sparse e s.dense.length,
           mset s.reverse s.dense.length e⟩

/-- Store-level part of `RblxECS.Component.remove` (src/src/rblx-ecs.ts:529-590):
swap-and-pop. Only when the removed index is not the last index, the dense
entries are swapped and both mappings are re-pointed to the entity owning the
last slot; then the dense array is popped, `sparse[e]` is deleted, and the
reverse entry at the vacated last index is deleted.
`(mget s.reverse l).getD 0` models the non-null assertion
`denseArrayComponentToEntity.get(lastIndex)!`. -/
def storeRemoveC {P : Type} [Inhabited P] (s : Store P) (e : Nat) : Store P × Bool :=
  match mget s.sparse e with
  | none => (s, false)
  | some r =>
      let l := s.dense.length - 1
      let s₁ :=
        if r ≠ l then
          let swapped := (mget s.reverse l).getD 0
          ({ dense := (s.dense.set r (s.dense.getD l default)).set l (s.dense.getD r default),
             sparse := mset s.sparse swapped r,
             reverse := mset s.reverse r swapped } : Store P)
        else s
      ({ dense := s₁.dense.dropLast,
         sparse := mdel s₁.sparse e,
         reverse := mdel s₁.reverse l }, true)

/-- Store-level part of `RblxECS.Tag.remove` (src/src/rblx-ecs.ts:746-801).
Unlike `Component.remove`, the source updates both sparse maps and swaps the
dense entries UNCONDITIONALLY (no `removedIndex == lastIndex` special case);
the trailing deletes of `sparse[e]` and `reverse[lastIndex]` then clean up. -/
def storeRemoveT (s : Store Nat) (e : Nat) : Store Nat × Bool :=
  match mget s.sparse e with
  | none => (s, false)
  | some r =>
      let l := s.dense.length - 1
      let swapped := (mget s.reverse l).getD 0
      let sparse₁ := mset s.sparse swapped r
      let reverse₁ := mset s.reverse r swapped
      let dense₁ := (s.dense.set l (s.dense.getD r 0)).set r (s.dense.getD l 0)
      ({ dense := dense₁.dropLast,
         sparse := mdel sparse₁ e,
         reverse := mdel reverse₁ l }, true)

/-- Full well-formedness of a sparse-set store, the inductive invariant:
keys of both maps are distinct, the reverse map's domain is exactly the
occupied dense indices, and `sparse`/`reverse` are mutually inverse. -/
structure StoreWf {P : Type} (s : Store P) : Prop where
  sparseNodup : KeysNodup s.sparse
  reverseNodup : KeysNodup s.reverse
  domLt : ∀ i e, mget s.reverse i = some e → i < s.dense.length
  domFull : ∀ i, i < s.dense.length → (mget s.reverse i).isSome
  sparRev : ∀ e i, mget s.sparse e = some i → mget s.reverse i = some e
  revSpar : ∀ i e, mget s.reverse i = some e → mget s.sparse e = some i

theorem storeWf_empty {P : Type} : StoreWf (emptyStore P) := by
  constructor <;> simp [emptyStore, KeysNodup, mget]

section MapIfLemmas

variable {K V : Type} [DecidableEq K]

theorem mget_mset (m : List (K × V)) (k x : K) (v : V) :
    mget (mset m k v) x = if x = k then some v else mget m x := by
  by_cases h : x = k
  · subst h; simp [mget_mset_self]
  · simp [h, mget_mset_ne _ _ h]

theorem mget_mdel {m : List (K × V)} (hn : KeysNodup m) (k x : K) :
    mget (mdel m k) x = if x = k then none else mget m x := by
  by_cases h : x = k
  · subst h; simp [mget_mdel_self hn]
  · simp [h, mget_mdel_ne _ h]

theorem length_eq_of_nodup_iff_lt {l : List Nat} {n : Nat} (hn : l.Nodup)
    (h : ∀ k, k ∈ l ↔ k < n) : l.length = n := by
  have h1 : l.toFinset = Finset.range n := by
    ext k; simp [List.mem_toFinset, Finset.mem_range, h]
  have h2 := List.toFinset_card_of_nodup hn
  rw [h1] at h2
  simpa using h2.symm

end MapIfLemmas

/-- Under full well-formedness, the dense array and the reverse map have
equal size (the reverse map's key set is exactly `{0, …, dense.length - 1}`). -/
theorem storeWf_size {P : Type} {s : Store P} (hwf : StoreWf s) :
    s.reverse.length = s.dense.length := by
  have hkeys : ∀ k, k ∈ s.reverse.map Prod.fst ↔ k < s.dense.length := by
    intro k
    rw [← mget_isSome_iff_mem_keys]
    constructor
    · intro h
      obtain ⟨e, he⟩ := Option.isSome_iff_exists.mp h
      exact hwf.domLt _ _ he
    · exact hwf.domFull k
  have := length_eq_of_nodup_iff_lt hwf.reverseNodup hkeys
  simpa using this

theorem storeWf_storeAddC {P : Type} {s s' : Store P} {e : Nat} {p : P}
    (hwf : StoreWf s) (h : storeAddC s e p = .ok s') : StoreWf s' := by
  unfold storeAddC at h
  cases habs : mget s.sparse e with
  | some i => rw [habs] at h; exact absurd h (by simp)
  | none =>
  rw [habs] at h
  simp only [Except.ok.injEq] at h
  subst h
  refine ⟨keysNodup_mset _ _ hwf.sparseNodup, keysNodup_mset _ _ hwf.reverseNodup,
    ?_, ?_, ?_, ?_⟩
  · intro i e' hi
    rw [mget_mset _ _ _ _] at hi
    simp only [List.length_append, List.length_cons, List.length_nil]
    split at hi
    · omega
    · have := hwf.domLt _ _ hi; omega
  · intro i hi
    simp only [List.length_append, List.length_cons, List.length_nil] at hi
    rw [mget_mset _ _ _ _]
    split
    · rfl
    · exact hwf.domFull i (by omega)
  · intro e' i hsp
    rw [mget_mset _ _ _ _] at hsp
    rw [mget_mset _ _ _ _]
    split at hsp
    · rename_i hee
      subst hee
      cases hsp
      split
      · rfl
      · omega
    · have hrev := hwf.sparRev _ _ hsp
      have hlt := hwf.domLt _ _ hrev
      split
      · omega
      · exact hrev
  · intro i e' hrev
    rw [mget_mset _ _ _ _] at hrev
    rw [mget_mset _ _ _ _]
    split at hrev
    · rename_i hii
      subst hii
      cases hrev
      split
      · rfl
      · simp_all
    · have hsp := hwf.revSpar _ _ hrev
      split
      · rename_i hee
        subst hee
        rw [hsp] at habs
        cases habs
      · exact hsp

theorem storeWf_storeRemoveC {P : Type} [Inhabited P] {s : Store P}
    (hwf : StoreWf s) (e : Nat) : StoreWf (storeRemoveC s e).1 := by
  rcases hsp : mget s.sparse e with - | r
  · unfold storeRemoveC
    rw [hsp]
    exact hwf
  · have hrev_r : mget s.reverse r = some e := hwf.sparRev _ _ hsp
    have hrlt : r < s.dense.length := hwf.domLt _ _ hrev_r
    have hnpos : 0 < s.dense.length := Nat.lt_of_le_of_lt (Nat.zero_le r) hrlt
    by_cases hrl : r = s.dense.length - 1
    · -- removing the last occupied slot: the swap is skipped
      unfold storeRemoveC
      rw [hsp]
      simp only [if_neg (not_not_intro hrl)]
      refine ⟨keysNodup_mdel _ hwf.sparseNodup, keysNodup_mdel _ hwf.reverseNodup,
        ?_, ?_, ?_, ?_⟩
      · intro i e' hi
        rw [mget_mdel hwf.reverseNodup] at hi
        split at hi
        · cases hi
        · have := hwf.domLt _ _ hi
          simp only [List.length_dropLast]
          omega
      · intro i hi
        simp only [List.length_dropLast] at hi
        rw [mget_mdel hwf.reverseNodup]
        split
        · omega
        · exact hwf.domFull i (by omega)
      · intro e' i h
        rw [mget_mdel hwf.sparseNodup] at h
        split at h
        · cases h
        · rename_i h1
          have hrev := hwf.sparRev _ _ h
          rw [mget_mdel hwf.reverseNodup]
          split
          · rename_i h2
            subst h2
            rw [← hrl, hrev_r] at hrev
            cases hrev
            exact absurd rfl h1
          · exact hrev
      · intro i e' h
        rw [mget_mdel hwf.reverseNodup] at h
        split at h
        · cases h
        · rename_i h2
          have hspv := hwf.revSpar _ _ h
          rw [mget_mdel hwf.sparseNodup]
          split
          · rename_i h1
            subst h1
            rw [hsp] at hspv
            cases hspv
            exact absurd hrl h2
          · exact hspv
    · -- general case: swap with the last slot, then pop
      have hl_lt : s.dense.length - 1 < s.dense.length := by omega
      obtain ⟨sw, hsw⟩ := Option.isSome_iff_exists.mp (hwf.domFull _ hl_lt)
      have hsw_sp : mget s.sparse sw = some (s.dense.length - 1) :=
        hwf.revSpar _ _ hsw
      have hswe : sw ≠ e := by
        intro hh
        rw [hh, hsp] at hsw_sp
        cases hsw_sp
        exact hrl rfl
      unfold storeRemoveC
      rw [hsp]
      simp only [if_pos hrl, hsw, Option.getD_some]
      have hSP : ∀ x, mget (mdel (mset s.sparse sw r) e) x =
          if x = e then none else if x = sw then some r else mget s.sparse x := by
        intro x
        rw [mget_mdel (keysNodup_mset _ _ hwf.sparseNodup), mget_mset]
      have hRV : ∀ i, mget (mdel (mset s.reverse r sw) (s.dense.length - 1)) i =
          if i = s.dense.length - 1 then none
          else if i = r then some sw else mget s.reverse i := by
        intro i
        rw [mget_mdel (keysNodup_mset _ _ hwf.reverseNodup), mget_mset]
      refine ⟨keysNodup_mdel _ (keysNodup_mset _ _ hwf.sparseNodup),
        keysNodup_mdel _ (keysNodup_mset _ _ hwf.reverseNodup), ?_, ?_, ?_, ?_⟩
      · intro i e' hi
        rw [hRV] at hi
        simp only [List.length_dropLast, List.length_set]
        split at hi
        · cases hi
        · split at hi
          · omega
          · have := hwf.domLt _ _ hi
            rename_i h1 _
            omega
      · intro i hi
        simp only [List.length_dropLast, List.length_set] at hi
        rw [hRV]
        split
        · omega
        · split
          · rfl
          · exact hwf.domFull i (by omega)
      · intro e' i h
        rw [hSP] at h
        split at h
        · cases h
        · rename_i h1
          split at h
          · rename_i h2
            subst h2
            cases h
            rw [hRV]
            rw [if_neg hrl, if_pos rfl]
          · rename_i h2
            have hrev := hwf.sparRev _ _ h
            rw [hRV]
            split
            · rename_i h3
              subst h3
              rw [hsw] at hrev
              cases hrev
              exact absurd rfl h2
            · split
              · rename_i h4
                subst h4
                rw [hrev_r] at hrev
                cases hrev
                exact absurd rfl h1
              · exact hrev
      · intro i e' h
        rw [hRV] at h
        split at h
        · cases h
        · rename_i h1
          split at h
          · rename_i h2
            subst h2
            cases h
            rw [hSP]
            rw [if_neg hswe, if_pos rfl]
          · rename_i h2
            have hspv := hwf.revSpar _ _ h
            rw [hSP]
            split
            · rename_i h3
              subst h3
              rw [hsp] at hspv
              cases hspv
              exact absurd rfl h2
            · split
              · rename_i h4
                subst h4
                rw [hsw_sp] at hspv
                cases hspv
                exact absurd rfl h1
              · exact hspv

theorem storeWf_storeRemoveT {s : Store Nat}
    (hwf : StoreWf s) (e : Nat) : StoreWf (storeRemoveT s e).1 := by
  rcases hsp : mget s.sparse e with - | r
  · unfold storeRemoveT
    rw [hsp]
    exact hwf
  · have hrev_r : mget s.reverse r = some e := hwf.sparRev _ _ hsp
    have hrlt : r < s.dense.length := hwf.domLt _ _ hrev_r
    have hnpos : 0 < s.dense.length := Nat.lt_of_le_of_lt (Nat.zero_le r) hrlt
    have hl_lt : s.dense.length - 1 < s.dense.length := by omega
    obtain ⟨sw, hsw⟩ := Option.isSome_iff_exists.mp (hwf.domFull _ hl_lt)
    have hsw_sp : mget s.sparse sw = some (s.dense.length - 1) :=
      hwf.revSpar _ _ hsw
    unfold storeRemoveT
    rw [hsp]
    simp only [hsw, Option.getD_some]
    by_cases hrl : r = s.dense.length - 1
    · -- the entity being removed owns the last slot, so the swapped entity is
      -- the entity itself and the unconditional swap is harmless
      have hswe : sw = e := by
        rw [← hrl, hrev_r] at hsw
        cases hsw
        rfl
      subst hswe
      have hSP : ∀ x, mget (mdel (mset s.sparse sw r) sw) x =
          if x = sw then none else mget s.sparse x := by
        intro x
        rw [mget_mdel (keysNodup_mset _ _ hwf.sparseNodup), mget_mset]
        by_cases hx : x = sw
        · simp [hx]
        · simp [hx]
      have hRV : ∀ i, mget (mdel (mset s.reverse r sw) (s.dense.length - 1)) i =
          if i = s.dense.length - 1 then none else mget s.reverse i := by
        intro i
        rw [mget_mdel (keysNodup_mset _ _ hwf.reverseNodup), mget_mset]
        by_cases hi : i = s.dense.length - 1
        · simp [hi]
        · simp [hi, show ¬ i = r by omega]
      refine ⟨keysNodup_mdel _ (keysNodup_mset _ _ hwf.sparseNodup),
        keysNodup_mdel _ (keysNodup_mset _ _ hwf.reverseNodup), ?_, ?_, ?_, ?_⟩
      · intro i e' hi
        rw [hRV] at hi
        simp only [List.length_dropLast, List.length_set]
        split at hi
        · cases hi
        · have := hwf.domLt _ _ hi
          rename_i h1
          omega
      · intro i hi
        simp only [List.length_dropLast, List.length_set] at hi
        rw [hRV]
        split
        · omega
        · exact hwf.domFull i (by omega)
      · intro e' i h
        rw [hSP] at h
        split at h
        · cases h
        · rename_i h1
          have hrev := hwf.sparRev _ _ h
          rw [hRV]
          split
          · rename_i h2
            subst h2
            rw [← hrl, hrev_r] at hrev
            cases hrev
            exact absurd rfl h1
          · exact hrev
      · intro i e' h
        rw [hRV] at h
        split at h
        · cases h
        · rename_i h2
          have hspv := hwf.revSpar _ _ h
          rw [hSP]
          split
          · rename_i h1
            subst h1
            rw [hsp] at hspv
            cases hspv
            exact absurd hrl h2
          · exact hspv
    · -- general case: identical to the component-store swap-and-pop
      have hswe : sw ≠ e := by
        intro hh
        rw [hh, hsp] at hsw_sp
        cases hsw_sp
        exact hrl rfl
      have hSP : ∀ x, mget (mdel (mset s.sparse sw r) e) x =
          if x = e then none else if x = sw then some r else mget s.sparse x := by
        intro x
        rw [mget_mdel (keysNodup_mset _ _ hwf.sparseNodup), mget_mset]
      have hRV : ∀ i, mget (mdel (mset s.reverse r sw) (s.dense.length - 1)) i =
          if i = s.dense.length - 1 then none
          else if i = r then some sw else mget s.reverse i := by
        intro i
        rw [mget_mdel (keysNodup_mset _ _ hwf.reverseNodup), mget_mset]
      refine ⟨keysNodup_mdel _ (keysNodup_mset _ _ hwf.sparseNodup),
        keysNodup_mdel _ (keysNodup_mset _ _ hwf.reverseNodup), ?_, ?_, ?_, ?_⟩
      · intro i e' hi
        rw [hRV] at hi
        simp only [List.length_dropLast, List.length_set]
        split at hi
        · cases hi
        · split at hi
          · omega
          · have := hwf.domLt _ _ hi
            rename_i h1 _
            omega
      · intro i hi
        simp only [List.length_dropLast, List.length_set] at hi
        rw [hRV]
        split
        · omega
        · split
          · rfl
          · exact hwf.domFull i (by omega)
      · intro e' i h
        rw [hSP] at h
        split at h
        · cases h
        · rename_i h1
          split at h
          · rename_i h2
            subst h2
            cases h
            rw [hRV]
            rw [if_neg hrl, if_pos rfl]
          · rename_i h2
            have hrev := hwf.sparRev _ _ h
            rw [hRV]
            split
            · rename_i h3
              subst h3
              rw [hsw] at hrev
              cases hrev
              exact absurd rfl h2
            · split
              · rename_i h4
                subst h4
                rw [hrev_r] at hrev
                cases hrev
                exact absurd rfl h1
              · exact hrev
      · intro i e' h
        rw [hRV] at h
        split at h
        · cases h
        · rename_i h1
          split at h
          · rename_i h2
            subst h2
            cases h
            rw [hSP]
            rw [if_neg hswe, if_pos rfl]
          · rename_i h2
            have hspv := hwf.revSpar _ _ h
            rw [hSP]
            split
            · rename_i h3
              subst h3
              rw [hsp] at hspv
              cases hspv
              exact absurd rfl h2
            · split
              · rename_i h4
                subst h4
                rw [hsw_sp] at hspv
                cases hspv
                exact absurd rfl h1
              · exact hspv

/-- The store invariants stated by the specification (§3), phrased exactly:
dense size equals reverse-map size, `sparse[reverseMap[i]] = i` for every
occupied dense index `i`, and the reverse map sends no entity to two distinct
occupied indices (each entity occupies at most one slot). -/
def storeInv {P : Type} (s : Store P) : Prop :=
  s.dense.length = s.reverse.length ∧
  (∀ i, i < s.dense.length → ((mget s.reverse i).bind (mget s.sparse)) = some i) ∧
  (∀ i, i < s.dense.length → ∀ j, j < s.dense.length →
    mget s.reverse i = mget s.reverse j → i = j)

theorem storeWf_implies_storeInv {P : Type} {s : Store P}
    (hwf : StoreWf s) : storeInv s := by
  refine ⟨(storeWf_size hwf).symm, ?_, ?_⟩
  · intro i hi
    obtain ⟨e, he⟩ := Option.isSome_iff_exists.mp (hwf.domFull i hi)
    rw [he]
    simpa using hwf.revSpar _ _ he
  · intro i hi j hj hij
    obtain ⟨e, he⟩ := Option.isSome_iff_exists.mp (hwf.domFull i hi)
    rw [he] at hij
    have h1 := hwf.revSpar _ _ he
    have h2 := hwf.revSpar _ _ hij.symm
    rw [h1] at h2
    cases h2
    rfl

/-- One `RblxECS.Component.add` or `RblxECS.Component.remove` call on one
component store, identified by its entity id (and payload for add). -/
inductive CompOp (P : Type) : Type
  | add (e : Nat) (p : P)
  | remove (e : Nat)

/-- One `RblxECS.Tag.add` or `RblxECS.Tag.remove` call on one tag store. -/
inductive TagOp : Type
  | add (e : Nat)
  | remove (e : Nat)

/-- Apply a component-store call. A `DuplicateAttachment` error aborts
`Component.add` before any mutation, so the store is unchanged. -/
def stepCompOp {P : Type} [Inhabited P] (s : Store P) : CompOp P → Store P
  | .add e p =>
      match storeAddC s e p with
      | .ok s' => s'
      | .error _ => s
  | .remove e => (storeRemoveC s e).1

/-- Apply a tag-store call. `Tag.add` pushes the entity id itself onto the
dense array (src/src/rblx-ecs.ts:688, 717), i.e. `storeAddC` with the id as
payload. -/
def stepTagOp (s : Store Nat) : TagOp → Store Nat
  | .add e =>
      match storeAddC s e e with
      | .ok s' => s'
      | .error _ => s
  | .remove e => (storeRemoveT s e).1

/-- Run a sequence of component-store calls on an initially empty (lazily
created) store. -/
def runCompOps {P : Type} [Inhabited P] (ops : List (CompOp P)) : Store P :=
  ops.foldl stepCompOp (emptyStore P)

/-- Run a sequence of tag-store calls on an initially empty store. -/
def runTagOps (ops : List TagOp) : Store Nat :=
  ops.foldl stepTagOp (emptyStore Nat)

theorem storeWf_stepCompOp {P : Type} [Inhabited P] {s : Store P}
    (hwf : StoreWf s) (op : CompOp P) : StoreWf (stepCompOp s op) := by
  cases op with
  | add e p =>
    cases h : storeAddC s e p with
    | ok s' =>
      have hh : stepCompOp s (.add e p) = s' := by simp [stepCompOp, h]
      rw [hh]
      exact storeWf_storeAddC hwf h
    | error err =>
      have hh : stepCompOp s (.add e p) = s := by simp [stepCompOp, h]
      rw [hh]
      exact hwf
  | remove e => exact storeWf_storeRemoveC hwf e

theorem storeWf_stepTagOp {s : Store Nat}
    (hwf : StoreWf s) (op : TagOp) : StoreWf (stepTagOp s op) := by
  cases op with
  | add e =>
    cases h : storeAddC s e e with
    | ok s' =>
      have hh : stepTagOp s (.add e) = s' := by simp [stepTagOp, h]
      rw [hh]
      exact storeWf_storeAddC hwf h
    | error err =>
      have hh : stepTagOp s (.add e) = s := by simp [stepTagOp, h]
      rw [hh]
      exact hwf
  | remove e => exact storeWf_storeRemoveT hwf e

theorem storeWf_foldl_compOps {P : Type} [Inhabited P] (ops : List (CompOp P)) :
    ∀ (s : Store P), StoreWf s → StoreWf (ops.foldl stepCompOp s) := by
  induction ops with
  | nil => intro s hs; exact hs
  | cons op ops ih =>
    intro s hs
    exact ih _ (storeWf_stepCompOp hs op)

theorem storeWf_foldl_tagOps (ops : List TagOp) :
    ∀ (s : Store Nat), StoreWf s → StoreWf (ops.foldl stepTagOp s) := by
  induction ops with
  | nil => intro s hs; exact hs
  | cons op ops ih =>
    intro s hs
    exact ih _ (storeWf_stepTagOp hs op)

/-- C1: For every sequence of `Component.add` / `Component.remove` /
`Tag.add` / `Tag.remove` calls on a store, after every operation the store's
dense payload array and its denseIndex-to-entity reverse map have equal size,
`sparse[reverseMap[i]] = i` for every occupied dense index `i`, and each
entity occupies at most one slot per store. (Every prefix of a call sequence
is itself a call sequence, so quantifying over all sequences covers the state
after every operation.) -/
theorem store_invariants_preserved (P : Type) [Inhabited P] :
    ∀ (ops : List (CompOp P)) (tops : List TagOp),
      storeInv (runCompOps ops) ∧ storeInv (runTagOps tops) := by
  intro ops tops
  exact ⟨storeWf_implies_storeInv (storeWf_foldl_compOps ops _ storeWf_empty),
         storeWf_implies_storeInv (storeWf_foldl_tagOps tops _ storeWf_empty)⟩

/-- A per-entity lifecycle callback invocation fired by an operation; `cb` is
the identifier of the registered callback and `t` the component/tag type id.
The "changed" event also carries the now-current payload, as in the source
(`onComponentChangedEventForEntities.get(h)?.(component, dense[idx])`). -/
inductive Event (P : Type) : Type
  | componentAdded (cb t : Nat)
  | componentRemoved (cb t : Nat)
  | componentChanged (cb t : Nat) (p : P)
  | tagAdded (cb t : Nat)
  | tagRemoved (cb t : Nat)
deriving DecidableEq

/-- The module-level mutable state of the namespace `RblxECS`
(src/src/rblx-ecs.ts:30-162), with payloads drawn from `P`. The five
dispatcher maps are keyed by the entity handle `(entityId, generation)` and
store the identifier of the (single) registered callback. -/
structure World (P : Type) : Type where
  nextEntityId : Nat
  entities : List Nat
  generationsArray : List (Nat × Nat)
  freeEntityIdsArray : List Nat
  components : List (Nat × Store P)
  tags : List (Nat × Store Nat)
  onComponentAddedEventForEntities : List ((Nat × Nat) × Nat)
  onComponentRemovedEventForEntities : List ((Nat × Nat) × Nat)
  onComponentChangedEventForEntities : List ((Nat × Nat) × Nat)
  onTagAddedEventForEntities : List ((Nat × Nat) × Nat)
  onTagRemovedEventForEntities : List ((Nat × Nat) × Nat)
deriving DecidableEq

/-- The state at module load: all counters zero, all registries empty. -/
def initialWorld (P : Type) : World P :=
  ⟨0, [], [], [], [], [], [], [], [], [], []⟩

/-- Embedding of src/src/utils/isEntityValid.ts: `generationsArray[entityId] === generation`. -/
def isEntityValid (entityHandle : Nat × Nat) (generationsArray : List (Nat × Nat)) : Bool :=
  mget generationsArray entityHandle.1 == some entityHandle.2

/-- Computes `(generationsArray[entityId] ?? -1) + 1`: `0` for a never-used id,
otherwise the stored generation plus one. -/
def generationIncremented (generationsArray : List (Nat × Nat)) (entityId : Nat) : Nat :=
  match mget generationsArray entityId with
  | none => 0
  | some g => g + 1

/-- Events fired by `Component.add`: the per-entity "added" callback, if one
is registered for this handle. -/
def fireCompAdded {P : Type} (w : World P) (h : Nat × Nat) (t : Nat) : List (Event P) :=
  match mget w.onComponentAddedEventForEntities h with
  | some cb => [.componentAdded cb t]
  | none => []

/-- Events fired by `Component.remove`. -/
def fireCompRemoved {P : Type} (w : World P) (h : Nat × Nat) (t : Nat) : List (Event P) :=
  match mget w.onComponentRemovedEventForEntities h with
  | some cb => [.componentRemoved cb t]
  | none => []

/-- Events fired by `Tag.add`. -/
def fireTagAdded {P : Type} (w : World P) (h : Nat × Nat) (t : Nat) : List (Event P) :=
  match mget w.onTagAddedEventForEntities h with
  | some cb => [.tagAdded cb t]
  | none => []

/-- Events fired by `Tag.remove`. -/
def fireTagRemoved {P : Type} (w : World P) (h : Nat × Nat) (t : Nat) : List (Event P) :=
  match mget w.onTagRemovedEventForEntities h with
  | some cb => [.tagRemoved cb t]
  | none => []

namespace Component

/-- Embedding of `RblxECS.Component.add` (src/src/rblx-ecs.ts:445-511): validate, then
push payload and mappings (the source's first-attach branch builds the same
state as `storeAddC` on the lazily-created empty store), then fire the
per-entity "added" callback. A stale handle or duplicate attachment errors
before any mutation. -/
def add {P : Type} (w : World P) (h : Nat × Nat) (t : Nat) (p : P) :
    Except ECSError (World P × List (Event P)) :=
  if isEntityValid h w.generationsArray then
    let s := (mget w.components t).getD (emptyStore P)
    match storeAddC s h.1 p with
    | .error err => .error err
    | .ok s' => .ok ({ w with components := mset w.components t s' }, fireCompAdded w h t)
  else .error .staleHandle

/-- Embedding of `RblxECS.Component.get` (src/src/rblx-ecs.ts:352-389): validate (stale
handle errors), then return `undefined` when the component type was never
registered (after a debug-only diagnostic) or the entity has no slot;
otherwise the payload at the dense index. -/
def get {P : Type} (w : World P) (h : Nat × Nat) (t : Nat) :
    Except ECSError (Option P) :=
  if isEntityValid h w.generationsArray then
    match mget w.components t with
    | none => .ok none
    | some s =>
      match mget s.sparse h.1 with
      | none => .ok none
      | some i => .ok (s.dense.get? i)
  else .error .staleHandle

/-- Embedding of `RblxECS.Component.mutablyChange` (src/src/rblx-ecs.ts:407-427):
validate, error on unregistered type, error when the entity has no payload
(`dense[sparse.get(e)!]` is `undefined`), else run the callback on the live
payload (`callback` returns the mutated payload and `some b` for a returned
boolean `b`, `none` when it returns nothing) and fire the per-entity
"changed" callback with the now-current payload when the source condition
`isChanged !== undefined` holds. -/
def mutablyChange {P : Type} (w : World P) (h : Nat × Nat) (t : Nat)
    (callback : P → P × Option Bool) : Except ECSError (World P × List (Event P)) :=
  if isEntityValid h w.generationsArray then
    match mget w.components t with
    | none => .error .unregisteredType
    | some s =>
      match mget s.sparse h.1 with
      | none => .error .missingComponent
      | some i =>
        match s.dense.get? i with
        | none => .error .missingComponent
        | some v =>
          let r := callback v
          let s' := { s with dense := s.dense.set i r.1 }
          let w' := { w with components := mset w.components t s' }
          let evs : List (Event P) :=
            if r.2.isSome then
              match mget w.onComponentChangedEventForEntities h with
              | some cb => [.componentChanged cb t r.1]
              | none => []
            else []
          .ok (w', evs)
  else .error .staleHandle

/-- Embedding of `RblxECS.Component.remove` (src/src/rblx-ecs.ts:529-590): validate
(stale handle errors), return `false` for an unregistered type or an absent
slot, else swap-and-pop via `storeRemoveC` and fire the per-entity "removed"
callback. -/
def remove {P : Type} [Inhabited P] (w : World P) (h : Nat × Nat) (t : Nat) :
    Except ECSError (World P × Bool × List (Event P)) :=
  if isEntityValid h w.generationsArray then
    match mget w.components t with
    | none => .ok (w, false, [])
    | some s =>
      match storeRemoveC s h.1 with
      | (_, false) => .ok (w, false, [])
      | (s', true) =>
          .ok ({ w with components := mset w.components t s' }, true, fireCompRemoved w h t)
  else .error .staleHandle

end Component

namespace Tag

/-- Embedding of `RblxECS.Tag.add` (src/src/rblx-ecs.ts:666-728): validate, then push the
entity id onto the dense array with the bidirectional mapping (first-attach
branch included, as for components), fire the "tag added" callback, return
`true`. Duplicate tags error before mutation. -/
def add {P : Type} (w : World P) (h : Nat × Nat) (t : Nat) :
    Except ECSError (World P × Bool × List (Event P)) :=
  if isEntityValid h w.generationsArray then
    let s := (mget w.tags t).getD (emptyStore Nat)
    match storeAddC s h.1 h.1 with
    | .error err => .error err
    | .ok s' => .ok ({ w with tags := mset w.tags t s' }, true, fireTagAdded w h t)
  else .error .staleHandle

/-- Embedding of `RblxECS.Tag.has` (src/src/rblx-ecs.ts:635-650): no validation and no
mutation; `false` for a never-registered tag or an absent sparse entry,
otherwise `dense[idx] !== undefined`. Only the entity id of the handle is
ever read. -/
def has {P : Type} (w : World P) (h : Nat × Nat) (t : Nat) : Bool :=
  match mget w.tags t with
  | none => false
  | some s =>
    match mget s.sparse h.1 with
    | none => false
    | some i => (s.dense.get? i).isSome

/-- Embedding of `RblxECS.Tag.remove` (src/src/rblx-ecs.ts:746-801): validate (stale
handle errors), return `false` for an unregistered tag or an absent slot,
else swap-and-pop via `storeRemoveT` and fire the "tag removed" callback. -/
def remove {P : Type} (w : World P) (h : Nat × Nat) (t : Nat) :
    Except ECSError (World P × Bool × List (Event P)) :=
  if isEntityValid h w.generationsArray then
    match mget w.tags t with
    | none => .ok (w, false, [])
    | some s =>
      match storeRemoveT s h.1 with
      | (_, false) => .ok (w, false, [])
      | (s', true) =>
          .ok ({ w with tags := mset w.tags t s' }, true, fireTagRemoved w h t)
  else .error .staleHandle

end Tag

namespace Events

/-- Embedding of `RblxECS.Events.setComponentAddedForEntitySignalCallback`: re-registering
silently replaces the previous callback for the handle. -/
def setComponentAddedForEntitySignalCallback {P : Type} (w : World P)
    (h : Nat × Nat) (cb : Nat) : World P :=
  { w with onComponentAddedEventForEntities := mset w.onComponentAddedEventForEntities h cb }

/-- Embedding of `RblxECS.Events.setComponentRemovedForEntitySignalCallback`. -/
def setComponentRemovedForEntitySignalCallback {P : Type} (w : World P)
    (h : Nat × Nat) (cb : Nat) : World P :=
  { w with onComponentRemovedEventForEntities := mset w.onComponentRemovedEventForEntities h cb }

/-- Embedding of `RblxECS.Events.setComponentChangedForEntitySignalCallback`. -/
def setComponentChangedForEntitySignalCallback {P : Type} (w : World P)
    (h : Nat × Nat) (cb : Nat) : World P :=
  { w with onComponentChangedEventForEntities := mset w.onComponentChangedEventForEntities h cb }

/-- Embedding of `RblxECS.Events.setTagAddedForEntitySignalCallback`. -/
def setTagAddedForEntitySignalCallback {P : Type} (w : World P)
    (h : Nat × Nat) (cb : Nat) : World P :=
  { w with onTagAddedEventForEntities := mset w.onTagAddedEventForEntities h cb }

/-- Embedding of `RblxECS.Events.setTagRemovedForEntitySignalCallback`. -/
def setTagRemovedForEntitySignalCallback {P : Type} (w : World P)
    (h : Nat × Nat) (cb : Nat) : World P :=
  { w with onTagRemovedEventForEntities := mset w.onTagRemovedEventForEntities h cb }

end Events

/-- The `for (const [componentType, _] of components)` loop of
`destroyEntity` (src/src/rblx-ecs.ts:270-273): call `Component.remove` for
each registered component type, accumulating the fired events. The handle
stays valid throughout, so the error branch is unreachable there. -/
def destroyCompLoop {P : Type} [Inhabited P] (h : Nat × Nat) (keys : List Nat)
    (acc : World P × List (Event P)) : World P × List (Event P) :=
  keys.foldl (fun acc t =>
    match Component.remove acc.1 h t with
    | .ok (w', _, evs) => (w', acc.2 ++ evs)
    | .error _ => acc) acc

/-- The `for (const [tagType, _] of tags)` loop of `destroyEntity`
(src/src/rblx-ecs.ts:275-278). -/
def destroyTagLoop {P : Type} (h : Nat × Nat) (keys : List Nat)
    (acc : World P × List (Event P)) : World P × List (Event P) :=
  keys.foldl (fun acc t =>
    match Tag.remove acc.1 h t with
    | .ok (w', _, evs) => (w', acc.2 ++ evs)
    | .error _ => acc) acc

namespace Entity

/-- Embedding of `RblxECS.Entity.createEntity` (src/src/rblx-ecs.ts:214-237): recycle the
id at the FRONT of the free pool (`shift()`) if any, else allocate
`nextEntityId++` and append it to `entities`; in both branches store and
return `(generationsArray[id] ?? -1) + 1` as the new generation. -/
def createEntity {P : Type} (w : World P) : World P × (Nat × Nat) :=
  match w.freeEntityIdsArray with
  | entityId :: rest =>
      let g := generationIncremented w.generationsArray entityId
      ({ w with freeEntityIdsArray := rest,
                generationsArray := mset w.generationsArray entityId g }, (entityId, g))
  | [] =>
      let entityId := w.nextEntityId
      let g := generationIncremented w.generationsArray entityId
      ({ w with nextEntityId := entityId + 1,
                generationsArray := mset w.generationsArray entityId g,
                entities := w.entities ++ [entityId] }, (entityId, g))

/-- Embedding of `RblxECS.Entity.destroyEntity` (src/src/rblx-ecs.ts:258-294): a stale
handle is a logged no-op returning `false`; otherwise call
`Component.remove` for every registered component type and `Tag.remove` for
every registered tag type (JS `Map` iteration is insertion order; the handle
stays valid throughout, so those calls cannot error), delete the handle's
entries from all five dispatcher maps, push the id onto the free pool, store
`generation + 1`, and return `true`. -/
def destroyEntity {P : Type} [Inhabited P] (w : World P) (h : Nat × Nat) :
    World P × Bool × List (Event P) :=
  if isEntityValid h w.generationsArray then
    let acc₁ := destroyCompLoop h (w.components.map Prod.fst) (w, ([] : List (Event P)))
    let acc₂ := destroyTagLoop h (w.tags.map Prod.fst) acc₁
    let w₂ := acc₂.1
    let w₃ := { w₂ with
      onComponentAddedEventForEntities := mdel w₂.onComponentAddedEventForEntities h,
      onComponentRemovedEventForEntities := mdel w₂.onComponentRemovedEventForEntities h,
      onComponentChangedEventForEntities := mdel w₂.onComponentChangedEventForEntities h,
      onTagAddedEventForEntities := mdel w₂.onTagAddedEventForEntities h,
      onTagRemovedEventForEntities := mdel w₂.onTagRemovedEventForEntities h }
    ({ w₃ with freeEntityIdsArray := w₃.freeEntityIdsArray ++ [h.1],
               generationsArray := mset w₃.generationsArray h.1 (h.2 + 1) },
     true, acc₂.2)
  else (w, false, [])

end Entity

/-- C2 (code bug): on a fresh world `createEntity` returns `(0, 0)` and after
`destroyEntity` the old handle fails validation — but the next `createEntity`
that reuses id 0 returns generation 2, not 1: `destroyEntity` stores
`generation + 1` and `createEntity` then stores and returns
`(generationsArray[id] ?? -1) + 1` on top of that, so each destroy/create
cycle advances the generation by two. This contradicts the source's own doc
comments ("First creation: [5, 0] — After destruction and recreation:
[5, 1]", src/src/rblx-ecs.ts:198-203, and the `generationsArray` comment at
lines 61-63). -/
theorem create_destroy_create_returns_generation_two :
    ((Entity.createEntity (initialWorld Nat)).2 = (0, 0)) ∧
    ((Entity.destroyEntity (Entity.createEntity (initialWorld Nat)).1
        (Entity.createEntity (initialWorld Nat)).2).2.1 = true) ∧
    (isEntityValid (Entity.createEntity (initialWorld Nat)).2
        (Entity.destroyEntity (Entity.createEntity (initialWorld Nat)).1
          (Entity.createEntity (initialWorld Nat)).2).1.generationsArray = false) ∧
    ((Entity.createEntity
        (Entity.destroyEntity (Entity.createEntity (initialWorld Nat)).1
          (Entity.createEntity (initialWorld Nat)).2).1).2 = (0, 2)) ∧
    ((Entity.createEntity
        (Entity.destroyEntity (Entity.createEntity (initialWorld Nat)).1
          (Entity.createEntity (initialWorld Nat)).2).1).2 ≠ (0, 1)) := by
  decide

/-- A world holding the live entity `(0, 0)` with component type 1 attached
(payload 5) and a "changed" callback (id 7) registered for the handle. -/
def c3World : World Nat :=
  let r1 := Entity.createEntity (initialWorld Nat)
  let wb :=
    match Component.add r1.1 r1.2 1 5 with
    | .ok (w, _) => w
    | .error _ => r1.1
  Events.setComponentChangedForEntitySignalCallback wb r1.2 7

/-- C3 (code bug): `mutablyChange` fires the per-entity "changed" callback
whenever the mutation callback's return value is not `undefined`
(`isChanged !== undefined`, src/src/rblx-ecs.ts:423), so a callback
returning `false` fires exactly one "changed" event — although the source's
own comment on that line says "Does nothing if the component data is not
changed (false)", and the claim says `false` must fire none. Returning
nothing fires none, and returning `true` fires exactly one, as claimed. -/
theorem mutablyChange_fires_changed_on_false :
    ((match Component.mutablyChange c3World (0, 0) 1 (fun p => (p, some false)) with
      | .ok (_, evs) => evs
      | .error _ => []) = [Event.componentChanged 7 1 5]) ∧
    ((match Component.mutablyChange c3World (0, 0) 1 (fun p => (p, none)) with
      | .ok (_, evs) => evs
      | .error _ => []) = []) ∧
    ((match Component.mutablyChange c3World (0, 0) 1 (fun p => (p, some true)) with
      | .ok (_, evs) => evs
      | .error _ => []) = [Event.componentChanged 7 1 5]) := by
  decide

/-- C10: `Tag.has` performs no handle validation and no mutation (it is a
pure Boolean function in this embedding because the source has no `error()`
call and no write); its result depends only on the entity id, the tag id,
and the tag registry — never on the handle's generation. Consequently a
stale handle whose id has been recycled reports the tag membership of the
current live entity with that id. -/
theorem tagHas_depends_only_on_id_and_tags {P : Type} (w w' : World P)
    (hts : w.tags = w'.tags) (id g g' t : Nat) :
    Tag.has w (id, g) t = Tag.has w' (id, g') t := by
  unfold Tag.has
  rw [hts]

/-- A world in which `(0, 0)` was created and destroyed, id 0 was recycled
as the live entity `(0, 2)`, and tag 1 was added to `(0, 2)`. -/
def c10World : World Nat :=
  let r1 := Entity.createEntity (initialWorld Nat)
  let d := Entity.destroyEntity r1.1 r1.2
  let r2 := Entity.createEntity d.1
  match Tag.add r2.1 r2.2 1 with
  | .ok (w, _, _) => w
  | .error _ => r2.1

/-- Witness for C10: the stale handle `(0, 0)` and the live handle `(0, 2)`
agree on `Tag.has`, and both report the tag of the current entity with id 0. -/
theorem tagHas_depends_only_on_id_and_tags_witness :
    Tag.has c10World (0, 0) 1 = Tag.has c10World (0, 2) 1 ∧
    Tag.has c10World (0, 0) 1 = true :=
  ⟨tagHas_depends_only_on_id_and_tags c10World c10World rfl 0 0 2 1, by decide⟩

/-- C6: every mutating or reading component/tag operation rejects a handle
that fails `isEntityValid` with a StaleHandle error, raised before any state
is touched (in this pure embedding an error result carries no state, so
nothing is mutated), while the pure existence check `Tag.has` does not
raise: it resolves both "tag never registered" and "entry not present" to
the Boolean `false`. -/
theorem stale_handle_ops_error {P : Type} [Inhabited P] (w : World P)
    (h : Nat × Nat) (t : Nat) (p : P) (callback : P → P × Option Bool)
    (hstale : isEntityValid h w.generationsArray = false) :
    Component.add w h t p = .error .staleHandle ∧
    Component.get w h t = .error .staleHandle ∧
    Component.mutablyChange w h t callback = .error .staleHandle ∧
    Component.remove w h t = .error .staleHandle ∧
    Tag.add w h t = .error .staleHandle ∧
    Tag.remove w h t = .error .staleHandle ∧
    (mget w.tags t = none → Tag.has w h t = false) ∧
    (∀ s, mget w.tags t = some s → mget s.sparse h.1 = none → Tag.has w h t = false) := by
  refine ⟨?_, ?_, ?_, ?_, ?_, ?_, ?_, ?_⟩
  · simp [Component.add, hstale]
  · simp [Component.get, hstale]
  · simp [Component.mutablyChange, hstale]
  · simp [Component.remove, hstale]
  · simp [Tag.add, hstale]
  · simp [Tag.remove, hstale]
  · intro hn
    simp [Tag.has, hn]
  · intro s hs hsp
    simp [Tag.has, hs, hsp]

/-- A world holding only the live entity `(0, 0)`: the handle `(0, 1)` is
stale there. -/
def c6World : World Nat := (Entity.createEntity (initialWorld Nat)).1

/-- Witness for C6: the concrete stale handle `(0, 1)` is rejected. -/
theorem stale_handle_ops_error_witness :
    isEntityValid (0, 1) c6World.generationsArray = false ∧
    Component.get c6World (0, 1) 1 = .error .staleHandle :=
  ⟨by decide,
   (stale_handle_ops_error c6World (0, 1) 1 0 (fun p => (p, none)) (by decide)).2.1⟩

instance {ε α : Type} [DecidableEq ε] [DecidableEq α] :
    DecidableEq (Except ε α) := fun x y =>
  match x, y with
  | .ok a, .ok b =>
    match decEq a b with
    | isTrue hab => isTrue (congrArg Except.ok hab)
    | isFalse hab => isFalse (fun hh => hab (Except.ok.inj hh))
  | .error a, .error b =>
    match decEq a b with
    | isTrue hab => isTrue (congrArg Except.error hab)
    | isFalse hab => isFalse (fun hh => hab (Except.error.inj hh))
  | .ok _, .error _ => isFalse (fun hh => Except.noConfusion hh)
  | .error _, .ok _ => isFalse (fun hh => Except.noConfusion hh)

/-- A world holding only the live entity `(0, 0)`; no component or tag type
is registered. -/
def c7World : World Nat := (Entity.createEntity (initialWorld Nat)).1

/-- C7 counterexample: with the valid handle `(0, 0)` and component type 3
never returned by `createStrictComponent`, `Component.get` does NOT abort
with an UnregisteredType error — it returns `undefined` (after a debug-only
diagnostic), the same observable outcome as a normal "present type, absent
on this entity" miss — and `Component.remove` returns `false`, also without
error. -/
theorem unregistered_get_is_ok_not_error :
    isEntityValid (0, 0) c7World.generationsArray = true ∧
    mget c7World.components 3 = none ∧
    Component.get c7World (0, 0) 3 = .ok none ∧
    Component.get c7World (0, 0) 3 ≠ .error ECSError.unregisteredType ∧
    Component.remove c7World (0, 0) 3 = .ok (c7World, false, []) := by
  decide

/-- C7 (amended): for a valid handle and a type id never registered, only
`Component.mutablyChange` aborts with an UnregisteredType error (fail-fast,
no mutation). The other operations do not abort and do not distinguish the
unregistered type from an absent component: `Component.get` returns
`undefined` with only a debug diagnostic, `Component.remove` and
`Tag.remove` return `false`, `Tag.has` returns `false`, and `Component.add`
/ `Tag.add` silently register a fresh store for the unknown type id. -/
theorem unregistered_type_actual_behavior {P : Type} [Inhabited P] (w : World P)
    (h : Nat × Nat) (t : Nat) (p : P) (callback : P → P × Option Bool)
    (hvalid : isEntityValid h w.generationsArray = true)
    (hc : mget w.components t = none) (ht : mget w.tags t = none) :
    Component.get w h t = .ok none ∧
    Component.remove w h t = .ok (w, false, []) ∧
    Component.mutablyChange w h t callback = .error .unregisteredType ∧
    (Component.add w h t p =
      .ok ({ w with components := mset w.components t ⟨[p], [(h.1, 0)], [(0, h.1)]⟩ },
           fireCompAdded w h t)) ∧
    Tag.has w h t = false ∧
    Tag.remove w h t = .ok (w, false, []) ∧
    (Tag.add w h t =
      .ok ({ w with tags := mset w.tags t ⟨[h.1], [(h.1, 0)], [(0, h.1)]⟩ },
           true, fireTagAdded w h t)) := by
  refine ⟨?_, ?_, ?_, ?_, ?_, ?_, ?_⟩
  · simp [Component.get, hvalid, hc]
  · simp [Component.remove, hvalid, hc]
  · simp [Component.mutablyChange, hvalid, hc]
  · simp [Component.add, hvalid, hc, storeAddC, emptyStore, mget, mset]
  · simp [Tag.has, ht]
  · simp [Tag.remove, hvalid, ht]
  · simp [Tag.add, hvalid, ht, storeAddC, emptyStore, mget, mset]

/-- Witness for the amended C7 at a concrete input. -/
theorem unregistered_type_actual_behavior_witness :
    (isEntityValid (0, 0) c7World.generationsArray = true ∧
     mget c7World.components 3 = none ∧ mget c7World.tags 3 = none) ∧
    Component.mutablyChange c7World (0, 0) 3 (fun p => (p, none)) =
      .error .unregisteredType :=
  ⟨⟨by decide, by decide, by decide⟩,
   (unregistered_type_actual_behavior c7World (0, 0) 3 0 (fun p => (p, none))
      (by decide) (by decide) (by decide)).2.2.1⟩

/-- Frame property of `Component.remove`: it either errors or returns the
input world with only the `components` registry replaced. -/
theorem compRemove_components_only {P : Type} [Inhabited P] (w : World P)
    (h : Nat × Nat) (t : Nat) :
    (∃ err, Component.remove w h t = .error err) ∨
    (∃ b evs cs, Component.remove w h t = .ok ({ w with components := cs }, b, evs)) := by
  unfold Component.remove
  split
  · split
    · exact Or.inr ⟨false, [], w.components, rfl⟩
    · split
      · exact Or.inr ⟨false, [], w.components, rfl⟩
      · exact Or.inr ⟨true, _, _, rfl⟩
  · exact Or.inl ⟨.staleHandle, rfl⟩

/-- Frame property of `Tag.remove`: it either errors or returns the input
world with only the `tags` registry replaced. -/
theorem tagRemove_tags_only {P : Type} (w : World P) (h : Nat × Nat) (t : Nat) :
    (∃ err, Tag.remove w h t = .error err) ∨
    (∃ b evs ts, Tag.remove w h t = .ok ({ w with tags := ts }, b, evs)) := by
  unfold Tag.remove
  split
  · split
    · exact Or.inr ⟨false, [], w.tags, rfl⟩
    · split
      · exact Or.inr ⟨false, [], w.tags, rfl⟩
      · exact Or.inr ⟨true, _, _, rfl⟩
  · exact Or.inl ⟨.staleHandle, rfl⟩

/-- Frame property of `Component.add`. -/
theorem compAdd_components_only {P : Type} (w : World P)
    (h : Nat × Nat) (t : Nat) (p : P) :
    (∃ err, Component.add w h t p = .error err) ∨
    (∃ evs cs, Component.add w h t p = .ok ({ w with components := cs }, evs)) := by
  unfold Component.add
  split
  · cases hadd : storeAddC ((mget w.components t).getD (emptyStore P)) h.1 p with
    | error err => exact Or.inl ⟨err, by simp [hadd]⟩
    | ok s' =>
      exact Or.inr ⟨fireCompAdded w h t, mset w.components t s', by simp [hadd]⟩
  · exact Or.inl ⟨.staleHandle, rfl⟩

/-- Frame property of `Component.mutablyChange`. -/
theorem compMutablyChange_components_only {P : Type} (w : World P)
    (h : Nat × Nat) (t : Nat) (callback : P → P × Option Bool) :
    (∃ err, Component.mutablyChange w h t callback = .error err) ∨
    (∃ evs cs, Component.mutablyChange w h t callback = .ok ({ w with components := cs }, evs)) := by
  unfold Component.mutablyChange
  split
  · split
    · exact Or.inl ⟨_, rfl⟩
    · split
      · exact Or.inl ⟨_, rfl⟩
      · split
        · exact Or.inl ⟨_, rfl⟩
        · exact Or.inr ⟨_, _, rfl⟩
  · exact Or.inl ⟨.staleHandle, rfl⟩

/-- Frame property of `Tag.add`. -/
theorem tagAdd_tags_only {P : Type} (w : World P) (h : Nat × Nat) (t : Nat) :
    (∃ err, Tag.add w h t = .error err) ∨
    (∃ b evs ts, Tag.add w h t = .ok ({ w with tags := ts }, b, evs)) := by
  unfold Tag.add
  split
  · cases hadd : storeAddC ((mget w.tags t).getD (emptyStore Nat)) h.1 h.1 with
    | error err => exact Or.inl ⟨err, by simp [hadd]⟩
    | ok s' =>
      exact Or.inr ⟨true, fireTagAdded w h t, mset w.tags t s', by simp [hadd]⟩
  · exact Or.inl ⟨.staleHandle, rfl⟩

/-- The component-removal loop of `destroyEntity` only replaces the
`components` registry of its input world. -/
theorem destroyFoldC_components_only {P : Type} [Inhabited P] (h : Nat × Nat)
    (keys : List Nat) :
    ∀ (w : World P) (evs0 : List (Event P)), ∃ cs evs,
      destroyCompLoop h keys (w, evs0) = ({ w with components := cs }, evs) := by
  induction keys with
  | nil =>
    intro w evs0
    exact ⟨w.components, evs0, rfl⟩
  | cons t keys ih =>
    intro w evs0
    rcases compRemove_components_only w h t with ⟨err, herr⟩ | ⟨b, evs', cs', hok⟩
    · simpa [destroyCompLoop, List.foldl_cons, herr] using ih w evs0
    · obtain ⟨cs'', evs'', hfold⟩ := ih { w with components := cs' } (evs0 ++ evs')
      exact ⟨cs'', evs'',
        by simpa [destroyCompLoop, List.foldl_cons, hok] using hfold⟩

/-- The tag-removal loop of `destroyEntity` only replaces the `tags`
registry of its input world. -/
theorem destroyFoldT_tags_only {P : Type} (h : Nat × Nat) (keys : List Nat) :
    ∀ (w : World P) (evs0 : List (Event P)), ∃ ts evs,
      destroyTagLoop h keys (w, evs0) = ({ w with tags := ts }, evs) := by
  induction keys with
  | nil =>
    intro w evs0
    exact ⟨w.tags, evs0, rfl⟩
  | cons t keys ih =>
    intro w evs0
    rcases tagRemove_tags_only w h t with ⟨err, herr⟩ | ⟨b, evs', ts', hok⟩
    · simpa [destroyTagLoop, List.foldl_cons, herr] using ih w evs0
    · obtain ⟨ts'', evs'', hfold⟩ := ih { w with tags := ts' } (evs0 ++ evs')
      exact ⟨ts'', evs'',
        by simpa [destroyTagLoop, List.foldl_cons, hok] using hfold⟩

/-- Effect of a successful `destroyEntity` on everything except the two
store registries: generation stored as `handle generation + 1`, id pushed
onto the free pool, all five dispatcher entries for the handle deleted,
`nextEntityId` and `entities` untouched. -/
theorem destroyEntity_valid_effect {P : Type} [Inhabited P] (w : World P)
    (h : Nat × Nat) (hv : isEntityValid h w.generationsArray = true) :
    ∃ cs ts evs,
      Entity.destroyEntity w h =
        ({ nextEntityId := w.nextEntityId,
           entities := w.entities,
           generationsArray := mset w.generationsArray h.1 (h.2 + 1),
           freeEntityIdsArray := w.freeEntityIdsArray ++ [h.1],
           components := cs,
           tags := ts,
           onComponentAddedEventForEntities := mdel w.onComponentAddedEventForEntities h,
           onComponentRemovedEventForEntities := mdel w.onComponentRemovedEventForEntities h,
           onComponentChangedEventForEntities := mdel w.onComponentChangedEventForEntities h,
           onTagAddedEventForEntities := mdel w.onTagAddedEventForEntities h,
           onTagRemovedEventForEntities := mdel w.onTagRemovedEventForEntities h }, true, evs) := by
  obtain ⟨cs, evs1, hfold1⟩ :=
    destroyFoldC_components_only h (w.components.map Prod.fst) w ([] : List (Event P))
  obtain ⟨ts, evs2, hfold2⟩ :=
    destroyFoldT_tags_only h (w.tags.map Prod.fst) { w with components := cs } evs1
  refine ⟨cs, ts, evs2, ?_⟩
  unfold Entity.destroyEntity
  rw [hv]
  simp only [if_true, hfold1, hfold2]

theorem isEntityValid_eq_true_iff (h : Nat × Nat) (gens : List (Nat × Nat)) :
    isEntityValid h gens = true ↔ mget gens h.1 = some h.2 := by
  simp [isEntityValid]

/-- One public allocator call, as in the claim: `createEntity` or
`destroyEntity`. -/
inductive EntityOp : Type
  | create
  | destroy (h : Nat × Nat)

/-- Apply one allocator call, tracking alongside the world the list of
currently live handles (each returned by `createEntity` and not successfully
destroyed since) — bookkeeping of this embedding only, not source state. -/
def stepEntityOp {P : Type} [Inhabited P] (st : World P × List (Nat × Nat)) :
    EntityOp → World P × List (Nat × Nat)
  | .create =>
      ((Entity.createEntity st.1).1, st.2 ++ [(Entity.createEntity st.1).2])
  | .destroy h =>
      ((Entity.destroyEntity st.1 h).1,
       if (Entity.destroyEntity st.1 h).2.1 then
         st.2.filter (fun x => decide (x ≠ h))
       else st.2)

/-- Run allocator calls from the initial module state. -/
def runEntityOps {P : Type} [Inhabited P] (ops : List EntityOp) :
    World P × List (Nat × Nat) :=
  ops.foldl stepEntityOp (initialWorld P, [])

/-- Allocator invariant: free-pool ids are below `nextEntityId`, ids at or
above `nextEntityId` have no stored generation, every live handle's
generation is at most the stored generation of its id, and live handles are
pairwise distinct. -/
structure AllocInv {P : Type} (w : World P) (live : List (Nat × Nat)) : Prop where
  freeLt : ∀ id ∈ w.freeEntityIdsArray, id < w.nextEntityId
  genDom : ∀ id, w.nextEntityId ≤ id → mget w.generationsArray id = none
  liveBound : ∀ h ∈ live, ∃ g, mget w.generationsArray h.1 = some g ∧ h.2 ≤ g
  livePairwise : live.Pairwise (fun a b => a ≠ b)

theorem allocInv_initial (P : Type) : AllocInv (initialWorld P) [] := by
  constructor <;> simp [initialWorld]

theorem generationIncremented_of_some {gens : List (Nat × Nat)} {id g : Nat}
    (h : mget gens id = some g) : generationIncremented gens id = g + 1 := by
  unfold generationIncremented
  rw [h]

theorem generationIncremented_of_none {gens : List (Nat × Nat)} {id : Nat}
    (h : mget gens id = none) : generationIncremented gens id = 0 := by
  unfold generationIncremented
  rw [h]

theorem createEntity_eq_cons {P : Type} (w : World P) (id0 : Nat)
    (rest : List Nat) (hfree : w.freeEntityIdsArray = id0 :: rest) :
    Entity.createEntity w =
      ({ w with freeEntityIdsArray := rest,
                generationsArray := mset w.generationsArray id0
                  (generationIncremented w.generationsArray id0) },
       (id0, generationIncremented w.generationsArray id0)) := by
  unfold Entity.createEntity
  rw [hfree]

theorem createEntity_eq_nil {P : Type} (w : World P)
    (hfree : w.freeEntityIdsArray = []) :
    Entity.createEntity w =
      ({ w with nextEntityId := w.nextEntityId + 1,
                entities := w.entities ++ [w.nextEntityId],
                generationsArray := mset w.generationsArray w.nextEntityId
                  (generationIncremented w.generationsArray w.nextEntityId) },
       (w.nextEntityId, generationIncremented w.generationsArray w.nextEntityId)) := by
  unfold Entity.createEntity
  rw [hfree]

theorem allocInv_create {P : Type} {w : World P} {live : List (Nat × Nat)}
    (hinv : AllocInv w live) :
    AllocInv (Entity.createEntity w).1 (live ++ [(Entity.createEntity w).2]) := by
  cases hfree : w.freeEntityIdsArray with
  | cons id0 rest =>
    rw [createEntity_eq_cons w id0 rest hfree]
    have hid0 : id0 < w.nextEntityId :=
      hinv.freeLt id0 (by rw [hfree]; exact List.mem_cons_self _ _)
    refine ⟨?_, ?_, ?_, ?_⟩
    · intro id hid
      show id < w.nextEntityId
      exact hinv.freeLt id (by rw [hfree]; exact List.mem_cons_of_mem _ hid)
    · intro id hge
      have hge' : w.nextEntityId ≤ id := hge
      show mget (mset w.generationsArray id0
        (generationIncremented w.generationsArray id0)) id = none
      rw [mget_mset_ne _ _ (by omega)]
      exact hinv.genDom id hge'
    · intro a ha
      show ∃ g, mget (mset w.generationsArray id0
        (generationIncremented w.generationsArray id0)) a.1 = some g ∧ a.2 ≤ g
      rcases List.mem_append.mp ha with ha | ha
      · obtain ⟨gv, hgv, hle⟩ := hinv.liveBound a ha
        by_cases hae : a.1 = id0
        · rw [hae, mget_mset_self]
          rw [hae] at hgv
          rw [generationIncremented_of_some hgv]
          exact ⟨gv + 1, rfl, by omega⟩
        · rw [mget_mset_ne _ _ hae]
          exact ⟨gv, hgv, hle⟩
      · simp only [List.mem_singleton] at ha
        subst ha
        exact ⟨_, mget_mset_self _ _ _, le_refl _⟩
    · show (live ++ [(id0, generationIncremented w.generationsArray id0)]).Pairwise _
      rw [List.pairwise_append]
      refine ⟨hinv.livePairwise, List.pairwise_singleton _ _, ?_⟩
      intro a ha b hb
      simp only [List.mem_singleton] at hb
      subst hb
      intro hab
      obtain ⟨gv, hgv, hle⟩ := hinv.liveBound a ha
      have ha1 : a.1 = id0 := by rw [hab]
      have ha2 : a.2 = generationIncremented w.generationsArray id0 := by rw [hab]
      rw [ha1] at hgv
      rw [generationIncremented_of_some hgv] at ha2
      omega
  | nil =>
    rw [createEntity_eq_nil w hfree]
    have hnone : mget w.generationsArray w.nextEntityId = none :=
      hinv.genDom _ (le_refl _)
    have hnolive : ∀ a ∈ live, a.1 ≠ w.nextEntityId := by
      intro a ha hae
      obtain ⟨gv, hgv, _⟩ := hinv.liveBound a ha
      rw [hae, hnone] at hgv
      cases hgv
    refine ⟨?_, ?_, ?_, ?_⟩
    · intro id hid
      have hid' : id ∈ w.freeEntityIdsArray := hid
      rw [hfree] at hid'
      cases hid'
    · intro id hge
      have hge' : w.nextEntityId + 1 ≤ id := hge
      show mget (mset w.generationsArray w.nextEntityId
        (generationIncremented w.generationsArray w.nextEntityId)) id = none
      rw [mget_mset_ne _ _ (by omega)]
      exact hinv.genDom id (by omega)
    · intro a ha
      show ∃ g, mget (mset w.generationsArray w.nextEntityId
        (generationIncremented w.generationsArray w.nextEntityId)) a.1 = some g ∧ a.2 ≤ g
      rcases List.mem_append.mp ha with ha | ha
      · obtain ⟨gv, hgv, hle⟩ := hinv.liveBound a ha
        rw [mget_mset_ne _ _ (hnolive a ha)]
        exact ⟨gv, hgv, hle⟩
      · simp only [List.mem_singleton] at ha
        subst ha
        exact ⟨_, mget_mset_self _ _ _, le_refl _⟩
    · show (live ++ [(w.nextEntityId, _)]).Pairwise _
      rw [List.pairwise_append]
      refine ⟨hinv.livePairwise, List.pairwise_singleton _ _, ?_⟩
      intro a ha b hb
      simp only [List.mem_singleton] at hb
      subst hb
      intro hab
      exact hnolive a ha (by rw [hab])

theorem allocInv_destroy {P : Type} [Inhabited P] {w : World P}
    {live : List (Nat × Nat)} (h : Nat × Nat) (hinv : AllocInv w live) :
    AllocInv (Entity.destroyEntity w h).1
      (if (Entity.destroyEntity w h).2.1 then
        live.filter (fun x => decide (x ≠ h))
       else live) := by
  by_cases hv : isEntityValid h w.generationsArray = true
  · obtain ⟨cs, ts, evs, heff⟩ := destroyEntity_valid_effect w h hv
    rw [heff]
    simp only [if_true]
    have hgv : mget w.generationsArray h.1 = some h.2 :=
      (isEntityValid_eq_true_iff _ _).mp hv
    have hlt : h.1 < w.nextEntityId := by
      by_contra hc
      push_neg at hc
      rw [hinv.genDom h.1 hc] at hgv
      cases hgv
    refine ⟨?_, ?_, ?_, ?_⟩
    · intro id hid
      show id < w.nextEntityId
      have hid' : id ∈ w.freeEntityIdsArray ++ [h.1] := hid
      rcases List.mem_append.mp hid' with hid' | hid'
      · exact hinv.freeLt id hid'
      · simp only [List.mem_singleton] at hid'
        subst hid'
        exact hlt
    · intro id hge
      have hge' : w.nextEntityId ≤ id := hge
      show mget (mset w.generationsArray h.1 (h.2 + 1)) id = none
      rw [mget_mset_ne _ _ (by omega)]
      exact hinv.genDom id hge'
    · intro a ha
      show ∃ g, mget (mset w.generationsArray h.1 (h.2 + 1)) a.1 = some g ∧ a.2 ≤ g
      have ha' := (List.mem_filter.mp ha).1
      obtain ⟨gv, hgv', hle⟩ := hinv.liveBound a ha'
      by_cases hae : a.1 = h.1
      · rw [hae, mget_mset_self]
        refine ⟨h.2 + 1, rfl, ?_⟩
        rw [hae, hgv] at hgv'
        cases hgv'
        omega
      · rw [mget_mset_ne _ _ hae]
        exact ⟨gv, hgv', hle⟩
    · exact hinv.livePairwise.sublist (List.filter_sublist _)
  · have hdead : Entity.destroyEntity w h = (w, false, []) := by
      unfold Entity.destroyEntity
      rw [if_neg hv]
    rw [hdead]
    simpa using hinv

theorem allocInv_runEntityOps {P : Type} [Inhabited P] (ops : List EntityOp) :
    ∀ (w : World P) (live : List (Nat × Nat)), AllocInv w live →
      AllocInv (ops.foldl stepEntityOp (w, live)).1
        (ops.foldl stepEntityOp (w, live)).2 := by
  induction ops with
  | nil => intro w live hi; exact hi
  | cons op ops ih =>
    intro w live hi
    cases op with
    | create => exact ih _ _ (allocInv_create hi)
    | destroy h => exact ih _ _ (allocInv_destroy h hi)

/-- C4: for every sequence of `createEntity` / `destroyEntity` calls starting
at the initial module state, the simultaneously live handles (each returned
by a `createEntity` and not successfully destroyed since) are pairwise
distinct — no two live entities share an `(id, generation)` pair. -/
theorem live_handles_pairwise_distinct (P : Type) [Inhabited P]
    (ops : List EntityOp) :
    ((runEntityOps (P := P) ops).2).Pairwise (fun a b => a ≠ b) :=
  (allocInv_runEntityOps ops (initialWorld P) [] (allocInv_initial P)).livePairwise

theorem mget_some_mem {K V : Type} [DecidableEq K] {m : List (K × V)} {k : K}
    {v : V} (h : mget m k = some v) : (k, v) ∈ m := by
  induction m with
  | nil => cases h
  | cons p m ih =>
    by_cases hp : p.1 = k
    · simp only [mget, if_pos hp] at h
      injection h with h2
      have hpkv : p = (k, v) := Prod.ext hp h2
      rw [← hpkv]
      exact List.mem_cons_self _ _
    · simp only [mget, if_neg hp] at h
      exact List.mem_cons_of_mem _ (ih h)

theorem mem_mset {K V : Type} [DecidableEq K] {p : K × V} {m : List (K × V)}
    {k : K} {v : V} (h : p ∈ mset m k v) : p = (k, v) ∨ p ∈ m := by
  induction m with
  | nil =>
    simp only [mset, List.mem_singleton] at h
    exact Or.inl h
  | cons q m ih =>
    by_cases hq : q.1 = k
    · simp only [mset, if_pos hq, List.mem_cons] at h
      rcases h with h | h
      · exact Or.inl h
      · exact Or.inr (List.mem_cons_of_mem _ h)
    · simp only [mset, if_neg hq, List.mem_cons] at h
      rcases h with h | h
      · exact Or.inr (by rw [h]; exact List.mem_cons_self _ _)
      · rcases ih h with h | h
        · exact Or.inl h
        · exact Or.inr (List.mem_cons_of_mem _ h)

/-- Every store in the registry has a sparse map with distinct keys (true of
every state built from real JS `Map`s, and preserved by all operations). -/
def StoresSparseNodup {P : Type} (reg : List (Nat × Store P)) : Prop :=
  ∀ p ∈ reg, KeysNodup p.2.sparse

instance {P : Type} (reg : List (Nat × Store P)) :
    Decidable (StoresSparseNodup reg) := by
  unfold StoresSparseNodup KeysNodup
  infer_instance

/-- The registry's store for type `t` (if any) has no slot for entity `e`. -/
def storeCleanAt {P : Type} (reg : List (Nat × Store P)) (t e : Nat) : Prop :=
  ∀ s, mget reg t = some s → mget s.sparse e = none

theorem storeRemoveC_sparse_none {P : Type} [Inhabited P] (s : Store P) (e : Nat)
    (hn : KeysNodup s.sparse) : mget ((storeRemoveC s e).1).sparse e = none := by
  rcases hsp : mget s.sparse e with - | r
  · unfold storeRemoveC
    rw [hsp]
    exact hsp
  · unfold storeRemoveC
    rw [hsp]
    by_cases hrl : r = s.dense.length - 1
    · simp only [if_neg (not_not_intro hrl)]
      exact mget_mdel_self hn e
    · simp only [if_pos hrl]
      exact mget_mdel_self (keysNodup_mset _ _ hn) e

theorem storeRemoveT_sparse_none (s : Store Nat) (e : Nat)
    (hn : KeysNodup s.sparse) : mget ((storeRemoveT s e).1).sparse e = none := by
  rcases hsp : mget s.sparse e with - | r
  · unfold storeRemoveT
    rw [hsp]
    exact hsp
  · unfold storeRemoveT
    rw [hsp]
    exact mget_mdel_self (keysNodup_mset _ _ hn) e

theorem storeRemoveC_sparse_nodup {P : Type} [Inhabited P] (s : Store P) (e : Nat)
    (hn : KeysNodup s.sparse) : KeysNodup ((storeRemoveC s e).1).sparse := by
  rcases hsp : mget s.sparse e with - | r
  · unfold storeRemoveC
    rw [hsp]
    exact hn
  · unfold storeRemoveC
    rw [hsp]
    by_cases hrl : r = s.dense.length - 1
    · simp only [if_neg (not_not_intro hrl)]
      exact keysNodup_mdel _ hn
    · simp only [if_pos hrl]
      exact keysNodup_mdel _ (keysNodup_mset _ _ hn)

theorem storeRemoveT_sparse_nodup (s : Store Nat) (e : Nat)
    (hn : KeysNodup s.sparse) : KeysNodup ((storeRemoveT s e).1).sparse := by
  rcases hsp : mget s.sparse e with - | r
  · unfold storeRemoveT
    rw [hsp]
    exact hn
  · unfold storeRemoveT
    rw [hsp]
    exact keysNodup_mdel _ (keysNodup_mset _ _ hn)

theorem storeRemoveC_snd_false {P : Type} [Inhabited P] {s : Store P} {e : Nat}
    (h : (storeRemoveC s e).2 = false) : mget s.sparse e = none := by
  rcases hsp : mget s.sparse e with - | r
  · rfl
  · unfold storeRemoveC at h
    rw [hsp] at h
    simp at h

theorem storeRemoveT_snd_false {s : Store Nat} {e : Nat}
    (h : (storeRemoveT s e).2 = false) : mget s.sparse e = none := by
  rcases hsp : mget s.sparse e with - | r
  · rfl
  · unfold storeRemoveT at h
    rw [hsp] at h
    simp at h

/-- One step of the component-removal loop of `destroyEntity`: on a valid
handle, `Component.remove` succeeds, touches only the `components` registry,
keeps its sparse maps well-keyed, and leaves no slot for the entity in the
store for `t`. -/
theorem compRemove_step {P : Type} [Inhabited P] (w : World P) (h : Nat × Nat)
    (t : Nat) (hv : isEntityValid h w.generationsArray = true)
    (hnod : StoresSparseNodup w.components) :
    ∃ w' b evs, Component.remove w h t = .ok (w', b, evs) ∧
      w'.generationsArray = w.generationsArray ∧
      w'.tags = w.tags ∧
      w'.freeEntityIdsArray = w.freeEntityIdsArray ∧
      w'.nextEntityId = w.nextEntityId ∧
      StoresSparseNodup w'.components ∧
      storeCleanAt w'.components t h.1 ∧
      (∀ t', t' ≠ t → mget w'.components t' = mget w.components t') := by
  unfold Component.remove
  rw [hv]
  simp only [if_true]
  rcases hcr : mget w.components t with - | s
  · refine ⟨w, false, [], rfl, rfl, rfl, rfl, rfl, hnod, ?_, fun t' _ => rfl⟩
    intro s hs
    rw [hcr] at hs
    cases hs
  · have hsnod : KeysNodup s.sparse := hnod (t, s) (mget_some_mem hcr)
    rcases hrem : storeRemoveC s h.1 with ⟨s₂, b₂⟩
    cases b₂ with
    | false =>
      refine ⟨w, false, [], by simp only [hrem], rfl, rfl, rfl, rfl, hnod, ?_, fun t' _ => rfl⟩
      intro s' hs'
      rw [hcr] at hs'
      injection hs' with hss
      subst hss
      exact storeRemoveC_snd_false (by rw [hrem])
    | true =>
      refine ⟨{ w with components := mset w.components t s₂ }, true,
        fireCompRemoved w h t, by simp only [hrem], rfl, rfl, rfl, rfl, ?_, ?_, ?_⟩
      · intro p hp
        rcases mem_mset hp with hp | hp
        · rw [hp]
          have : s₂ = (storeRemoveC s h.1).1 := by rw [hrem]
          rw [this]
          exact storeRemoveC_sparse_nodup s h.1 hsnod
        · exact hnod p hp
      · intro s' hs'
        have hms : mget (mset w.components t s₂) t = some s₂ := mget_mset_self _ _ _
        rw [hms] at hs'
        injection hs' with hss
        subst hss
        have : s₂ = (storeRemoveC s h.1).1 := by rw [hrem]
        rw [this]
        exact storeRemoveC_sparse_none s h.1 hsnod
      · intro t' ht'
        exact mget_mset_ne _ _ ht'

/-- One step of the tag-removal loop of `destroyEntity`. -/
theorem tagRemove_step {P : Type} (w : World P) (h : Nat × Nat)
    (t : Nat) (hv : isEntityValid h w.generationsArray = true)
    (hnod : StoresSparseNodup w.tags) :
    ∃ w' b evs, Tag.remove w h t = .ok (w', b, evs) ∧
      w'.generationsArray = w.generationsArray ∧
      w'.components = w.components ∧
      w'.freeEntityIdsArray = w.freeEntityIdsArray ∧
      w'.nextEntityId = w.nextEntityId ∧
      StoresSparseNodup w'.tags ∧
      storeCleanAt w'.tags t h.1 ∧
      (∀ t', t' ≠ t → mget w'.tags t' = mget w.tags t') := by
  unfold Tag.remove
  rw [hv]
  simp only [if_true]
  rcases hcr : mget w.tags t with - | s
  · refine ⟨w, false, [], rfl, rfl, rfl, rfl, rfl, hnod, ?_, fun t' _ => rfl⟩
    intro s hs
    rw [hcr] at hs
    cases hs
  · have hsnod : KeysNodup s.sparse := hnod (t, s) (mget_some_mem hcr)
    rcases hrem : storeRemoveT s h.1 with ⟨s₂, b₂⟩
    cases b₂ with
    | false =>
      refine ⟨w, false, [], by simp only [hrem], rfl, rfl, rfl, rfl, hnod, ?_, fun t' _ => rfl⟩
      intro s' hs'
      rw [hcr] at hs'
      injection hs' with hss
      subst hss
      exact storeRemoveT_snd_false (by rw [hrem])
    | true =>
      refine ⟨{ w with tags := mset w.tags t s₂ }, true,
        fireTagRemoved w h t, by simp only [hrem], rfl, rfl, rfl, rfl, ?_, ?_, ?_⟩
      · intro p hp
        rcases mem_mset hp with hp | hp
        · rw [hp]
          have : s₂ = (storeRemoveT s h.1).1 := by rw [hrem]
          rw [this]
          exact storeRemoveT_sparse_nodup s h.1 hsnod
        · exact hnod p hp
      · intro s' hs'
        have hms : mget (mset w.tags t s₂) t = some s₂ := mget_mset_self _ _ _
        rw [hms] at hs'
        injection hs' with hss
        subst hss
        have : s₂ = (storeRemoveT s h.1).1 := by rw [hrem]
        rw [this]
        exact storeRemoveT_sparse_none s h.1 hsnod
      · intro t' ht'
        exact mget_mset_ne _ _ ht'

theorem destroyCompLoop_clean {P : Type} [Inhabited P] (h : Nat × Nat)
    (keys : List Nat) :
    ∀ (w : World P) (evs0 : List (Event P)),
      isEntityValid h w.generationsArray = true →
      StoresSparseNodup w.components →
      StoresSparseNodup (destroyCompLoop h keys (w, evs0)).1.components ∧
      (∀ t, t ∈ keys ∨ storeCleanAt w.components t h.1 →
        storeCleanAt (destroyCompLoop h keys (w, evs0)).1.components t h.1) := by
  induction keys with
  | nil =>
    intro w evs0 hv hnod
    exact ⟨hnod, fun t ht => ht.resolve_left (List.not_mem_nil t)⟩
  | cons t₀ keys ih =>
    intro w evs0 hv hnod
    obtain ⟨w₁, b, evs, hok, hgens, htags, hfree, hnext, hnod₁, hclean₀, hframe⟩ :=
      compRemove_step w h t₀ hv hnod
    have hstep : destroyCompLoop h (t₀ :: keys) (w, evs0) =
        destroyCompLoop h keys (w₁, evs0 ++ evs) := by
      unfold destroyCompLoop
      simp only [List.foldl_cons, hok]
    have hv₁ : isEntityValid h w₁.generationsArray = true := by
      rw [hgens]; exact hv
    obtain ⟨hnodF, hcleanF⟩ := ih w₁ (evs0 ++ evs) hv₁ hnod₁
    rw [hstep]
    refine ⟨hnodF, ?_⟩
    intro t ht
    rcases ht with ht | ht
    · rcases List.mem_cons.mp ht with ht | ht
      · subst ht
        exact hcleanF t (Or.inr hclean₀)
      · exact hcleanF t (Or.inl ht)
    · by_cases hte : t = t₀
      · subst hte
        exact hcleanF t (Or.inr hclean₀)
      · refine hcleanF t (Or.inr ?_)
        intro s hs
        rw [hframe t hte] at hs
        exact ht s hs

theorem destroyTagLoop_clean {P : Type} (h : Nat × Nat)
    (keys : List Nat) :
    ∀ (w : World P) (evs0 : List (Event P)),
      isEntityValid h w.generationsArray = true →
      StoresSparseNodup w.tags →
      StoresSparseNodup (destroyTagLoop h keys (w, evs0)).1.tags ∧
      (∀ t, t ∈ keys ∨ storeCleanAt w.tags t h.1 →
        storeCleanAt (destroyTagLoop h keys (w, evs0)).1.tags t h.1) := by
  induction keys with
  | nil =>
    intro w evs0 hv hnod
    exact ⟨hnod, fun t ht => ht.resolve_left (List.not_mem_nil t)⟩
  | cons t₀ keys ih =>
    intro w evs0 hv hnod
    obtain ⟨w₁, b, evs, hok, hgens, hcomps, hfree, hnext, hnod₁, hclean₀, hframe⟩ :=
      tagRemove_step w h t₀ hv hnod
    have hstep : destroyTagLoop h (t₀ :: keys) (w, evs0) =
        destroyTagLoop h keys (w₁, evs0 ++ evs) := by
      unfold destroyTagLoop
      simp only [List.foldl_cons, hok]
    have hv₁ : isEntityValid h w₁.generationsArray = true := by
      rw [hgens]; exact hv
    obtain ⟨hnodF, hcleanF⟩ := ih w₁ (evs0 ++ evs) hv₁ hnod₁
    rw [hstep]
    refine ⟨hnodF, ?_⟩
    intro t ht
    rcases ht with ht | ht
    · rcases List.mem_cons.mp ht with ht | ht
      · subst ht
        exact hcleanF t (Or.inr hclean₀)
      · exact hcleanF t (Or.inl ht)
    · by_cases hte : t = t₀
      · subst hte
        exact hcleanF t (Or.inr hclean₀)
      · refine hcleanF t (Or.inr ?_)
        intro s hs
        rw [hframe t hte] at hs
        exact ht s hs

theorem destroyEntity_stale {P : Type} [Inhabited P] (w : World P)
    (h : Nat × Nat) (hstale : isEntityValid h w.generationsArray = false) :
    Entity.destroyEntity w h = (w, false, []) := by
  unfold Entity.destroyEntity
  rw [if_neg (by simp [hstale])]

/-- C5: contract of `destroyEntity`. On a stale handle it is an idempotent
no-op: the world is returned untouched with `false` and no events. On a
valid handle it returns `true`, removes the entity's slot from every
registered component and tag store where present (afterwards no registered
store has a sparse entry for the id), clears all five dispatcher entries for
the handle, appends the id to the free pool, and stores `generation + 1` for
the id. The key-distinctness hypotheses hold for every state built from real
JS `Map`s. -/
theorem destroyEntity_contract {P : Type} [Inhabited P] (w : World P)
    (h : Nat × Nat)
    (hcn : StoresSparseNodup w.components) (htn : StoresSparseNodup w.tags)
    (hd1 : KeysNodup w.onComponentAddedEventForEntities)
    (hd2 : KeysNodup w.onComponentRemovedEventForEntities)
    (hd3 : KeysNodup w.onComponentChangedEventForEntities)
    (hd4 : KeysNodup w.onTagAddedEventForEntities)
    (hd5 : KeysNodup w.onTagRemovedEventForEntities) :
    (isEntityValid h w.generationsArray = false →
      Entity.destroyEntity w h = (w, false, [])) ∧
    (isEntityValid h w.generationsArray = true →
      (Entity.destroyEntity w h).2.1 = true ∧
      (Entity.destroyEntity w h).1.freeEntityIdsArray =
        w.freeEntityIdsArray ++ [h.1] ∧
      mget (Entity.destroyEntity w h).1.generationsArray h.1 = some (h.2 + 1) ∧
      (∀ t s, mget (Entity.destroyEntity w h).1.components t = some s →
        mget s.sparse h.1 = none) ∧
      (∀ t s, mget (Entity.destroyEntity w h).1.tags t = some s →
        mget s.sparse h.1 = none) ∧
      mget (Entity.destroyEntity w h).1.onComponentAddedEventForEntities h = none ∧
      mget (Entity.destroyEntity w h).1.onComponentRemovedEventForEntities h = none ∧
      mget (Entity.destroyEntity w h).1.onComponentChangedEventForEntities h = none ∧
      mget (Entity.destroyEntity w h).1.onTagAddedEventForEntities h = none ∧
      mget (Entity.destroyEntity w h).1.onTagRemovedEventForEntities h = none) := by
  refine ⟨destroyEntity_stale w h, ?_⟩
  intro hv
  -- cleanliness of the component registry after the component loop
  obtain ⟨hnodC, hcleanC⟩ :=
    destroyCompLoop_clean h (w.components.map Prod.fst) w [] hv hcn
  obtain ⟨cs, evs1, heq1⟩ :=
    destroyFoldC_components_only h (w.components.map Prod.fst) w []
  rw [heq1] at hcleanC
  have hcleanCall : ∀ t, storeCleanAt cs t h.1 := by
    intro t
    by_cases hk : t ∈ w.components.map Prod.fst
    · exact hcleanC t (Or.inl hk)
    · refine hcleanC t (Or.inr ?_)
      intro s hs
      rw [mget_eq_none_of_not_mem_keys hk] at hs
      cases hs
  -- cleanliness of the tag registry after the tag loop
  have hv₁ : isEntityValid h ({ w with components := cs } : World P).generationsArray = true := hv
  obtain ⟨hnodT, hcleanT⟩ :=
    destroyTagLoop_clean h (w.tags.map Prod.fst) { w with components := cs } evs1 hv₁ htn
  obtain ⟨ts, evs2, heq2⟩ :=
    destroyFoldT_tags_only h (w.tags.map Prod.fst) { w with components := cs } evs1
  rw [heq2] at hcleanT
  have hcleanTall : ∀ t, storeCleanAt ts t h.1 := by
    intro t
    by_cases hk : t ∈ w.tags.map Prod.fst
    · exact hcleanT t (Or.inl hk)
    · refine hcleanT t (Or.inr ?_)
      intro s hs
      rw [mget_eq_none_of_not_mem_keys hk] at hs
      cases hs
  -- the final state is the record computed by `destroyEntity`
  have hres : Entity.destroyEntity w h =
      ({ nextEntityId := w.nextEntityId,
         entities := w.entities,
         generationsArray := mset w.generationsArray h.1 (h.2 + 1),
         freeEntityIdsArray := w.freeEntityIdsArray ++ [h.1],
         components := cs,
         tags := ts,
         onComponentAddedEventForEntities := mdel w.onComponentAddedEventForEntities h,
         onComponentRemovedEventForEntities := mdel w.onComponentRemovedEventForEntities h,
         onComponentChangedEventForEntities := mdel w.onComponentChangedEventForEntities h,
         onTagAddedEventForEntities := mdel w.onTagAddedEventForEntities h,
         onTagRemovedEventForEntities := mdel w.onTagRemovedEventForEntities h },
       true, evs2) := by
    unfold Entity.destroyEntity
    rw [hv]
    simp only [if_true, heq1, heq2]
  rw [hres]
  refine ⟨rfl, rfl, mget_mset_self _ _ _, ?_, ?_,
    mget_mdel_self hd1 h, mget_mdel_self hd2 h, mget_mdel_self hd3 h,
    mget_mdel_self hd4 h, mget_mdel_self hd5 h⟩
  · intro t s hs
    exact hcleanCall t s hs
  · intro t s hs
    exact hcleanTall t s hs

/-- A world with the live entity `(0, 0)` carrying component type 1 and tag
2, and all five per-entity callbacks registered for the handle. -/
def c5World : World Nat :=
  let r1 := Entity.createEntity (initialWorld Nat)
  let wb :=
    match Component.add r1.1 r1.2 1 5 with
    | .ok (w, _) => w
    | .error _ => r1.1
  let wc :=
    match Tag.add wb r1.2 2 with
    | .ok (w, _, _) => w
    | .error _ => wb
  let w1 := Events.setComponentAddedForEntitySignalCallback wc r1.2 11
  let w2 := Events.setComponentRemovedForEntitySignalCallback w1 r1.2 12
  let w3 := Events.setComponentChangedForEntitySignalCallback w2 r1.2 13
  let w4 := Events.setTagAddedForEntitySignalCallback w3 r1.2 14
  Events.setTagRemovedForEntitySignalCallback w4 r1.2 15

/-- Witness for C5 at a concrete populated world. -/
theorem destroyEntity_contract_witness :
    isEntityValid (0, 0) c5World.generationsArray = true ∧
    ((Entity.destroyEntity c5World (0, 0)).2.1 = true ∧
     (Entity.destroyEntity c5World (0, 0)).1.freeEntityIdsArray =
       c5World.freeEntityIdsArray ++ [0] ∧
     mget (Entity.destroyEntity c5World (0, 0)).1.generationsArray 0 = some 1 ∧
     (∀ t s, mget (Entity.destroyEntity c5World (0, 0)).1.components t = some s →
       mget s.sparse 0 = none) ∧
     (∀ t s, mget (Entity.destroyEntity c5World (0, 0)).1.tags t = some s →
       mget s.sparse 0 = none) ∧
     mget (Entity.destroyEntity c5World (0, 0)).1.onComponentAddedEventForEntities (0, 0) = none ∧
     mget (Entity.destroyEntity c5World (0, 0)).1.onComponentRemovedEventForEntities (0, 0) = none ∧
     mget (Entity.destroyEntity c5World (0, 0)).1.onComponentChangedEventForEntities (0, 0) = none ∧
     mget (Entity.destroyEntity c5World (0, 0)).1.onTagAddedEventForEntities (0, 0) = none ∧
     mget (Entity.destroyEntity c5World (0, 0)).1.onTagRemovedEventForEntities (0, 0) = none) :=
  ⟨by decide,
   (destroyEntity_contract c5World (0, 0) (by decide) (by decide) (by decide)
      (by decide) (by decide) (by decide) (by decide)).2 (by decide)⟩

/-- One state-changing public operation of the module. `Component.get` and
`Tag.has` return no state and are omitted: they cannot change
`generationsArray`. -/
inductive WOp (P : Type) : Type
  | createEntity
  | destroyEntity (h : Nat × Nat)
  | componentAdd (h : Nat × Nat) (t : Nat) (p : P)
  | componentMutablyChange (h : Nat × Nat) (t : Nat) (callback : P → P × Option Bool)
  | componentRemove (h : Nat × Nat) (t : Nat)
  | tagAdd (h : Nat × Nat) (t : Nat)
  | tagRemove (h : Nat × Nat) (t : Nat)
  | setComponentAddedCallback (h : Nat × Nat) (cb : Nat)
  | setComponentRemovedCallback (h : Nat × Nat) (cb : Nat)
  | setComponentChangedCallback (h : Nat × Nat) (cb : Nat)
  | setTagAddedCallback (h : Nat × Nat) (cb : Nat)
  | setTagRemovedCallback (h : Nat × Nat) (cb : Nat)

/-- Apply one public operation to the module state; an operation that raises
an error leaves the state as it was (the error aborts before mutation). -/
def stepWOp {P : Type} [Inhabited P] (w : World P) : WOp P → World P
  | .createEntity => (Entity.createEntity w).1
  | .destroyEntity h => (Entity.destroyEntity w h).1
  | .componentAdd h t p =>
      match Component.add w h t p with
      | .ok (w', _) => w'
      | .error _ => w
  | .componentMutablyChange h t callback =>
      match Component.mutablyChange w h t callback with
      | .ok (w', _) => w'
      | .error _ => w
  | .componentRemove h t =>
      match Component.remove w h t with
      | .ok (w', _, _) => w'
      | .error _ => w
  | .tagAdd h t =>
      match Tag.add w h t with
      | .ok (w', _, _) => w'
      | .error _ => w
  | .tagRemove h t =>
      match Tag.remove w h t with
      | .ok (w', _, _) => w'
      | .error _ => w
  | .setComponentAddedCallback h cb =>
      Events.setComponentAddedForEntitySignalCallback w h cb
  | .setComponentRemovedCallback h cb =>
      Events.setComponentRemovedForEntitySignalCallback w h cb
  | .setComponentChangedCallback h cb =>
      Events.setComponentChangedForEntitySignalCallback w h cb
  | .setTagAddedCallback h cb =>
      Events.setTagAddedForEntitySignalCallback w h cb
  | .setTagRemovedCallback h cb =>
      Events.setTagRemovedForEntitySignalCallback w h cb

theorem stepWOp_gens_monotone {P : Type} [Inhabited P] (w : World P)
    (op : WOp P) (eid g : Nat) (hg : mget w.generationsArray eid = some g) :
    ∃ g', mget (stepWOp w op).generationsArray eid = some g' ∧ g ≤ g' := by
  cases op with
  | createEntity =>
    cases hfree : w.freeEntityIdsArray with
    | cons id0 rest =>
      have hred : stepWOp w WOp.createEntity =
          { w with freeEntityIdsArray := rest,
                   generationsArray := mset w.generationsArray id0
                     (generationIncremented w.generationsArray id0) } := by
        show (Entity.createEntity w).1 = _
        rw [createEntity_eq_cons w id0 rest hfree]
      rw [hred]
      show ∃ g', mget (mset w.generationsArray id0
        (generationIncremented w.generationsArray id0)) eid = some g' ∧ g ≤ g'
      by_cases hid : eid = id0
      · subst hid
        rw [mget_mset_self, generationIncremented_of_some hg]
        exact ⟨g + 1, rfl, by omega⟩
      · rw [mget_mset_ne _ _ hid]
        exact ⟨g, hg, le_refl g⟩
    | nil =>
      have hred : stepWOp w WOp.createEntity =
          { w with nextEntityId := w.nextEntityId + 1,
                   entities := w.entities ++ [w.nextEntityId],
                   generationsArray := mset w.generationsArray w.nextEntityId
                     (generationIncremented w.generationsArray w.nextEntityId) } := by
        show (Entity.createEntity w).1 = _
        rw [createEntity_eq_nil w hfree]
      rw [hred]
      show ∃ g', mget (mset w.generationsArray w.nextEntityId
        (generationIncremented w.generationsArray w.nextEntityId)) eid = some g' ∧ g ≤ g'
      by_cases hid : eid = w.nextEntityId
      · subst hid
        rw [mget_mset_self, generationIncremented_of_some hg]
        exact ⟨g + 1, rfl, by omega⟩
      · rw [mget_mset_ne _ _ hid]
        exact ⟨g, hg, le_refl g⟩
  | destroyEntity h =>
    by_cases hv : isEntityValid h w.generationsArray = true
    · obtain ⟨cs, ts, evs, heff⟩ := destroyEntity_valid_effect w h hv
      have hred : stepWOp w (WOp.destroyEntity h) = (Entity.destroyEntity w h).1 := rfl
      rw [hred, heff]
      show ∃ g', mget (mset w.generationsArray h.1 (h.2 + 1)) eid = some g' ∧ g ≤ g'
      by_cases hid : eid = h.1
      · subst hid
        rw [mget_mset_self]
        have hg2 : mget w.generationsArray h.1 = some h.2 :=
          (isEntityValid_eq_true_iff _ _).mp hv
        rw [hg] at hg2
        injection hg2 with hgg
        exact ⟨h.2 + 1, rfl, by omega⟩
      · rw [mget_mset_ne _ _ hid]
        exact ⟨g, hg, le_refl g⟩
    · have hst : isEntityValid h w.generationsArray = false := by
        cases hb : isEntityValid h w.generationsArray
        · rfl
        · exact absurd hb hv
      have hred : stepWOp w (WOp.destroyEntity h) = w := by
        show (Entity.destroyEntity w h).1 = w
        rw [destroyEntity_stale w h hst]
      rw [hred]
      exact ⟨g, hg, le_refl g⟩
  | componentAdd h t p =>
    rcases compAdd_components_only w h t p with ⟨err, herr⟩ | ⟨evs, cs, hok⟩
    · have hred : stepWOp w (WOp.componentAdd h t p) = w := by
        simp [stepWOp, herr]
      rw [hred]
      exact ⟨g, hg, le_refl g⟩
    · have hred : stepWOp w (WOp.componentAdd h t p) = { w with components := cs } := by
        simp [stepWOp, hok]
      rw [hred]
      exact ⟨g, hg, le_refl g⟩
  | componentMutablyChange h t callback =>
    rcases compMutablyChange_components_only w h t callback with
      ⟨err, herr⟩ | ⟨evs, cs, hok⟩
    · have hred : stepWOp w (WOp.componentMutablyChange h t callback) = w := by
        simp [stepWOp, herr]
      rw [hred]
      exact ⟨g, hg, le_refl g⟩
    · have hred : stepWOp w (WOp.componentMutablyChange h t callback) =
          { w with components := cs } := by
        simp [stepWOp, hok]
      rw [hred]
      exact ⟨g, hg, le_refl g⟩
  | componentRemove h t =>
    rcases compRemove_components_only w h t with ⟨err, herr⟩ | ⟨b, evs, cs, hok⟩
    · have hred : stepWOp w (WOp.componentRemove h t) = w := by
        simp [stepWOp, herr]
      rw [hred]
      exact ⟨g, hg, le_refl g⟩
    · have hred : stepWOp w (WOp.componentRemove h t) = { w with components := cs } := by
        simp [stepWOp, hok]
      rw [hred]
      exact ⟨g, hg, le_refl g⟩
  | tagAdd h t =>
    rcases tagAdd_tags_only w h t with ⟨err, herr⟩ | ⟨b, evs, ts, hok⟩
    · have hred : stepWOp w (WOp.tagAdd h t) = w := by
        simp [stepWOp, herr]
      rw [hred]
      exact ⟨g, hg, le_refl g⟩
    · have hred : stepWOp w (WOp.tagAdd h t) = { w with tags := ts } := by
        simp [stepWOp, hok]
      rw [hred]
      exact ⟨g, hg, le_refl g⟩
  | tagRemove h t =>
    rcases tagRemove_tags_only w h t with ⟨err, herr⟩ | ⟨b, evs, ts, hok⟩
    · have hred : stepWOp w (WOp.tagRemove h t) = w := by
        simp [stepWOp, herr]
      rw [hred]
      exact ⟨g, hg, le_refl g⟩
    · have hred : stepWOp w (WOp.tagRemove h t) = { w with tags := ts } := by
        simp [stepWOp, hok]
      rw [hred]
      exact ⟨g, hg, le_refl g⟩
  | setComponentAddedCallback h cb => exact ⟨g, hg, le_refl g⟩
  | setComponentRemovedCallback h cb => exact ⟨g, hg, le_refl g⟩
  | setComponentChangedCallback h cb => exact ⟨g, hg, le_refl g⟩
  | setTagAddedCallback h cb => exact ⟨g, hg, le_refl g⟩
  | setTagRemovedCallback h cb => exact ⟨g, hg, le_refl g⟩

theorem foldl_stepWOp_gens_monotone {P : Type} [Inhabited P]
    (ops : List (WOp P)) :
    ∀ (w : World P) (eid g : Nat), mget w.generationsArray eid = some g →
      ∃ g', mget (ops.foldl stepWOp w).generationsArray eid = some g' ∧ g ≤ g' := by
  induction ops with
  | nil => intro w eid g hg; exact ⟨g, hg, le_refl g⟩
  | cons op ops ih =>
    intro w eid g hg
    obtain ⟨g1, hg1, hle1⟩ := stepWOp_gens_monotone w op eid g hg
    obtain ⟨g2, hg2, hle2⟩ := ih (stepWOp w op) eid g1 hg1
    exact ⟨g2, by simpa using hg2, le_trans hle1 hle2⟩

theorem isEntityValid_eq_false_of_ne {h : Nat × Nat}
    {gens : List (Nat × Nat)} {g' : Nat} (hg : mget gens h.1 = some g')
    (hne : g' ≠ h.2) : isEntityValid h gens = false := by
  unfold isEntityValid
  rw [hg]
  simp [hne]

theorem never_revalidate_of_lt {P : Type} [Inhabited P] (w : World P)
    (h : Nat × Nat) (g : Nat) (hg : mget w.generationsArray h.1 = some g)
    (hlt : h.2 < g) (ops : List (WOp P)) :
    isEntityValid h (ops.foldl stepWOp w).generationsArray = false := by
  obtain ⟨g', hg', hle⟩ := foldl_stepWOp_gens_monotone ops w h.1 g hg
  exact isEntityValid_eq_false_of_ne hg' (by omega)

/-- C9 (amended): the stored generation counter of an entity eid never
decreases across any state-changing public operation; consequently, once
`validate(h)` is false for a handle whose generation is strictly below the
stored generation of its eid — in particular for any handle that has been
successfully destroyed — it never becomes true again over any further
sequence of public operations. -/
theorem gens_monotone_and_destroyed_never_revalidates {P : Type} [Inhabited P] :
    (∀ (w : World P) (op : WOp P) (eid g : Nat),
       mget w.generationsArray eid = some g →
       ∃ g', mget (stepWOp w op).generationsArray eid = some g' ∧ g ≤ g') ∧
    (∀ (w : World P) (h : Nat × Nat) (g : Nat),
       mget w.generationsArray h.1 = some g → h.2 < g →
       ∀ ops : List (WOp P),
         isEntityValid h (ops.foldl stepWOp w).generationsArray = false) ∧
    (∀ (w : World P) (h : Nat × Nat),
       (Entity.destroyEntity w h).2.1 = true →
       ∀ ops : List (WOp P),
         isEntityValid h
           (ops.foldl stepWOp (Entity.destroyEntity w h).1).generationsArray = false) := by
  refine ⟨stepWOp_gens_monotone, never_revalidate_of_lt, ?_⟩
  intro w h hd ops
  have hv : isEntityValid h w.generationsArray = true := by
    by_contra hc
    have hst : isEntityValid h w.generationsArray = false := by
      cases hb : isEntityValid h w.generationsArray
      · rfl
      · exact absurd hb hc
    rw [destroyEntity_stale w h hst] at hd
    cases hd
  obtain ⟨cs, ts, evs, heff⟩ := destroyEntity_valid_effect w h hv
  refine never_revalidate_of_lt _ h (h.2 + 1) ?_ (by omega) ops
  rw [heff]
  show mget (mset w.generationsArray h.1 (h.2 + 1)) h.1 = some (h.2 + 1)
  exact mget_mset_self _ _ _

/-- A world holding only the live entity `(0, 0)`. -/
def c9World : World Nat := (Entity.createEntity (initialWorld Nat)).1

/-- Three destroy/create cycles on id 0; each cycle advances the stored
generation by two. -/
def c9Ops : List (WOp Nat) :=
  [.destroyEntity (0, 0), .createEntity, .destroyEntity (0, 2),
   .createEntity, .destroyEntity (0, 4)]

/-- C9 counterexample: the literal claim "once `validate(h)` is false, it
never becomes true again" fails for a forged handle whose generation lies in
the future of its id: `(0, 5)` fails validation right after id 0 is first
created (stored generation 0), yet after further destroy/create cycles the
stored generation reaches 5 and `(0, 5)` validates. -/
theorem forged_handle_revalidates :
    isEntityValid (0, 5) c9World.generationsArray = false ∧
    isEntityValid (0, 5) ((c9Ops.foldl stepWOp c9World)).generationsArray = true := by
  decide

/-- Witness for the amended C9: a concretely destroyed handle stays invalid. -/
theorem gens_monotone_never_revalidates_witness :
    (Entity.destroyEntity c9World (0, 0)).2.1 = true ∧
    isEntityValid (0, 0)
      ((([] : List (WOp Nat)).foldl stepWOp
        (Entity.destroyEntity c9World (0, 0)).1)).generationsArray = false :=
  ⟨by decide,
   (@gens_monotone_and_destroyed_never_revalidates Nat _).2.2 c9World (0, 0)
     (by decide) []⟩

namespace V2

/-
The repository source contains a second variant of the module
(src/src/rblx-ecs.ts:880-1518) whose registries are sparse TS arrays rather
than JS Maps and which adds the bitmask-keyed batch-change event system:
`Events.setComponentsChangedSignalCallback` (lines 1496-1516) and
`Component.batchComponentsChange` (lines 1392-1433). Sparse TS arrays behave
as key/value maps for the accesses performed, so they are embedded with the
same `mget`/`mset` operations, and each registered bucket is a `Store`.
Callbacks are identified by opaque numeric ids; `batchComponentsChange`
returns the ids of the callbacks it invokes.
-/

/-- Computes the source's `1 << typeId`. The TypeScript `<<` is a 32-bit
shift: roblox-ts compiles it to Luau `bit32.lshift`, which shifts all bits
out and returns 0 for displacements of 32 or more. For displacements below
32 the result of shifting 1 is below `2 ^ 32`, so no further truncation
occurs; ORing such values stays below `2 ^ 32` as well. -/
def oneShl32 (t : Nat) : Nat := if t < 32 then 1 <<< t else 0

/-- The bitmask of a component-type set: `mask |= (1 << typeId)` over the
subscribed (or changed) type ids, starting from 0, with the 32-bit shift
semantics of `oneShl32` — type ids of 32 or more contribute no bit, so
distinct sets can collide once ids reach the integer width. -/
def subscriptionMask (componentsToSubscribeFor : List Nat) : Nat :=
  componentsToSubscribeFor.foldl (fun mask t => mask ||| oneShl32 t) 0

/-- Embedding of `RblxECS.Events.setComponentsChangedSignalCallback`
(src/src/rblx-ecs.ts:1496-1516): store the callback under the exact bitmask
of the selected component-type set — append to the existing list for that
mask, or create a fresh one. -/
def setComponentsChangedSignalCallback (sigs : List (Nat × List Nat))
    (cb : Nat) (componentsToSubscribeFor : List Nat) : List (Nat × List Nat) :=
  let mask := subscriptionMask componentsToSubscribeFor
  match mget sigs mask with
  | none => mset sigs mask [cb]
  | some callbacksArray => mset sigs mask (callbacksArray ++ [cb])

/-- The selection phase of `batchComponentsChange`
(src/src/rblx-ecs.ts:1402-1410): read each selected component for the
entity; an unregistered selected type id aborts the whole call (destructuring
the `undefined` registry bucket fails at runtime), an absent sparse entry or
dense hole yields an `undefined` element. -/
def selectComponents {P : Type} (comps : List (Nat × Store P)) (entityId : Nat)
    (componentsSelect : List Nat) : Option (List (Option P)) :=
  componentsSelect.mapM (fun t =>
    match mget comps t with
    | none => none
    | some st =>
        match mget st.sparse entityId with
        | none => some none
        | some i => some (st.dense.get? i))

/-- The write-back loop of `batchComponentsChange`
(src/src/rblx-ecs.ts:1415-1425): for each `[typeId, data]` pair returned by
the user callback, abort on an unregistered type, skip (`continue`) types
the entity does not have, and otherwise write the new payload at the dense
index, OR the type's bit (`1 << typeId`, the 32-bit shift `oneShl32`) into
the mask, and record the changed payload. -/
def applyBatchResults {P : Type} (entityId : Nat) :
    List (Nat × P) → List (Nat × Store P) → Nat → List P →
    Option (List (Nat × Store P) × Nat × List P)
  | [], comps, mask, changedComponents => some (comps, mask, changedComponents)
  | tp :: rest, comps, mask, changedComponents =>
    match mget comps tp.1 with
    | none => none
    | some st =>
      match mget st.sparse entityId with
      | none => applyBatchResults entityId rest comps mask changedComponents
      | some i =>
          applyBatchResults entityId rest
            (mset comps tp.1 { st with dense := st.dense.set i tp.2 })
            (mask ||| oneShl32 tp.1) (changedComponents ++ [tp.2])

/-- Embedding of `RblxECS.Component.batchComponentsChange` (src/src/rblx-ecs.ts:1392-1433):
validate the handle (a stale handle errors — modelled as `none`), read the
selected components, run the user callback on them, write back its results
accumulating the mask of changed types, then look up
`componentsChangedSignalCallbacks[mask]` by EXACT mask equality: a miss is a
silent no-op, a hit invokes every stored callback. Returns the updated
registry and the ids of the invoked callbacks. -/
def batchComponentsChange {P : Type} (gens : List (Nat × Nat))
    (comps : List (Nat × Store P)) (sigs : List (Nat × List Nat))
    (entityHandle : Nat × Nat) (componentsSelect : List Nat)
    (callback : List (Option P) → List (Nat × P)) :
    Option (List (Nat × Store P) × List Nat) :=
  if isEntityValid entityHandle gens then
    match selectComponents comps entityHandle.1 componentsSelect with
    | none => none
    | some selected =>
      match applyBatchResults entityHandle.1 (callback selected) comps 0 [] with
      | none => none
      | some (comps', mask, _changedComponents) =>
        match mget sigs mask with
        | none => some (comps', [])
        | some callbacksArray => some (comps', callbacksArray)
  else none

/-- The component types of the callback's results that are present on the
entity — exactly the types whose bits the write-back loop ORs into the mask. -/
def changedTypes {P : Type} (comps : List (Nat × Store P)) (entityId : Nat)
    (results : List (Nat × P)) : List Nat :=
  (results.filter (fun tp =>
    ((mget comps tp.1).bind (fun st => mget st.sparse entityId)).isSome)).map Prod.fst

theorem testBit_oneShl32 (t i : Nat) :
    (oneShl32 t).testBit i = decide (i = t ∧ t < 32) := by
  unfold oneShl32
  by_cases ht : t < 32
  · rw [if_pos ht]
    have h1 : (1 <<< t) = 2 ^ t := by
      rw [Nat.shiftLeft_eq, one_mul]
    rw [h1, Nat.testBit_two_pow, decide_eq_decide]
    constructor
    · intro hti
      exact ⟨hti.symm, ht⟩
    · intro hit
      exact hit.1.symm
  · rw [if_neg ht, Nat.zero_testBit]
    simp [ht]

theorem testBit_maskFoldl (L : List Nat) : ∀ (m0 i : Nat),
    (L.foldl (fun m t => m ||| oneShl32 t) m0).testBit i =
      (m0.testBit i || decide (i ∈ L ∧ i < 32)) := by
  induction L with
  | nil => intro m0 i; simp
  | cons t L ih =>
    intro m0 i
    rw [List.foldl_cons, ih, Nat.testBit_or, testBit_oneShl32, Bool.or_assoc]
    congr 1
    have hor : ∀ (p q : Prop) [Decidable p] [Decidable q],
        (decide p || decide q) = decide (p ∨ q) := by
      intro p q hp hq
      by_cases hp' : p <;> by_cases hq' : q <;> simp [hp', hq']
    rw [hor, decide_eq_decide]
    constructor
    · rintro (⟨hit, ht32⟩ | ⟨hiL, hi32⟩)
      · subst hit
        exact ⟨List.mem_cons_self _ _, ht32⟩
      · exact ⟨List.mem_cons_of_mem _ hiL, hi32⟩
    · rintro ⟨hmem, hi32⟩
      rcases List.mem_cons.mp hmem with hit | hiL
      · exact Or.inl ⟨hit, by omega⟩
      · exact Or.inr ⟨hiL, hi32⟩

/-- Two subscription masks agree exactly when the two type-id sets agree
below the 32-bit integer width; ids of 32 or more contribute no bit. -/
theorem subscriptionMask_eq_iff (A B : List Nat) :
    subscriptionMask A = subscriptionMask B ↔
      (∀ t, t < 32 → (t ∈ A ↔ t ∈ B)) := by
  constructor
  · intro h t ht32
    have hA := testBit_maskFoldl A 0 t
    have hB := testBit_maskFoldl B 0 t
    rw [Nat.zero_testBit, Bool.false_or] at hA hB
    have heq : (decide (t ∈ A ∧ t < 32)) = (decide (t ∈ B ∧ t < 32)) := by
      rw [← hA, ← hB]
      unfold subscriptionMask at h
      rw [h]
    have hiff := decide_eq_decide.mp heq
    constructor
    · intro hta
      exact (hiff.mp ⟨hta, ht32⟩).1
    · intro htb
      exact (hiff.mpr ⟨htb, ht32⟩).1
  · intro h
    apply Nat.eq_of_testBit_eq
    intro i
    unfold subscriptionMask
    rw [testBit_maskFoldl, testBit_maskFoldl]
    by_cases hi32 : i < 32
    · simp [hi32, h i hi32]
    · simp [hi32]

/-- Below the 32-bit width, mask equality coincides with set equality. -/
theorem subscriptionMask_eq_iff_of_lt {A B : List Nat}
    (hA : ∀ t ∈ A, t < 32) (hB : ∀ t ∈ B, t < 32) :
    subscriptionMask A = subscriptionMask B ↔ (∀ t, t ∈ A ↔ t ∈ B) := by
  rw [subscriptionMask_eq_iff]
  constructor
  · intro h t
    by_cases ht32 : t < 32
    · exact h t ht32
    · constructor
      · intro hta
        exact absurd (hA t hta) ht32
      · intro htb
        exact absurd (hB t htb) ht32
  · intro h t _
    exact h t

theorem presence_stable {P : Type} {comps : List (Nat × Store P)} {t : Nat}
    {st : Store P} (hst : mget comps t = some st) (d' : List P)
    (t' e : Nat) :
    ((mget (mset comps t { st with dense := d' }) t').bind
      (fun s => mget s.sparse e)).isSome =
    ((mget comps t').bind (fun s => mget s.sparse e)).isSome := by
  by_cases htt : t' = t
  · subst htt
    rw [mget_mset_self, hst]
    rfl
  · rw [mget_mset_ne _ _ htt]


theorem applyBatchResults_mask {P : Type} (e : Nat) :
    ∀ (results : List (Nat × P)) (comps : List (Nat × Store P)) (mask : Nat)
      (changed : List P) (res : List (Nat × Store P) × Nat × List P),
      applyBatchResults e results comps mask changed = some res →
      res.2.1 = (changedTypes comps e results).foldl
        (fun m t => m ||| oneShl32 t) mask := by
  intro results
  induction results with
  | nil =>
    intro comps mask changed res h
    unfold applyBatchResults at h
    injection h with h
    rw [← h]
    simp [changedTypes]
  | cons tp rest ih =>
    intro comps mask changed res h
    unfold applyBatchResults at h
    cases hc : mget comps tp.1 with
    | none => rw [hc] at h; cases h
    | some st =>
      simp only [hc] at h
      cases hsp : mget st.sparse e with
      | none =>
        simp only [hsp] at h
        have hres := ih comps mask changed res h
        have hskip : changedTypes comps e (tp :: rest) = changedTypes comps e rest := by
          unfold changedTypes
          rw [List.filter_cons]
          rw [if_neg (by simp [hc, hsp])]
        rw [hskip]
        exact hres
      | some i =>
        simp only [hsp] at h
        have hres := ih _ _ _ res h
        have hchg : changedTypes
            (mset comps tp.1 { st with dense := st.dense.set i tp.2 }) e rest =
            changedTypes comps e rest := by
          unfold changedTypes
          congr 1
          apply List.filter_congr
          intro x _
          exact presence_stable hc _ x.1 e
        rw [hchg] at hres
        have hcons : changedTypes comps e (tp :: rest) =
            tp.1 :: changedTypes comps e rest := by
          unfold changedTypes
          rw [List.filter_cons]
          rw [if_pos (by simp [hc, hsp])]
          simp
        rw [hcons, List.foldl_cons]
        exact hres

theorem mget_setSignal (sigs : List (Nat × List Nat)) (cb : Nat)
    (S : List Nat) (m : Nat) :
    mget (setComponentsChangedSignalCallback sigs cb S) m =
      if m = subscriptionMask S then
        some ((mget sigs m).getD [] ++ [cb])
      else mget sigs m := by
  cases hm : mget sigs (subscriptionMask S) with
  | none =>
    simp only [setComponentsChangedSignalCallback, hm]
    by_cases hms : m = subscriptionMask S
    · subst hms
      rw [mget_mset_self, if_pos rfl, hm]
      rfl
    · rw [mget_mset_ne _ _ hms, if_neg hms]
  | some arr =>
    simp only [setComponentsChangedSignalCallback, hm]
    by_cases hms : m = subscriptionMask S
    · subst hms
      rw [mget_mset_self, if_pos rfl, hm]
      rfl
    · rw [mget_mset_ne _ _ hms, if_neg hms]

/-- C8 (amended): a batch-change subscriber registered (fresh) with the
explicit component-type set `S` fires on a batch-change operation if and
only if the 32-bit mask of the changed component types (the result types
present on the entity) equals the exact 32-bit bitmask of `S`. Because the
source's `1 << typeId` is a 32-bit shift, mask equality coincides with set
equality only when every type id involved is below 32; under that
restriction a batch changing a strict subset or strict superset of `S`
never fires the subscriber. A lookup with no matching mask is a silent
no-op: nothing fires. (Without the restriction the subset clause fails:
see the counterexample with the set `{1, 33}`.) -/
theorem batch_change_exact_mask {P : Type} (gens : List (Nat × Nat))
    (comps : List (Nat × Store P)) (sigs : List (Nat × List Nat))
    (h : Nat × Nat) (componentsSelect : List Nat)
    (callback : List (Option P) → List (Nat × P)) (cbid : Nat) (S : List Nat)
    (hfresh : ∀ m l, mget sigs m = some l → cbid ∉ l) :
    (∀ selected comps' fired,
       selectComponents comps h.1 componentsSelect = some selected →
       batchComponentsChange gens comps
         (setComponentsChangedSignalCallback sigs cbid S) h componentsSelect
         callback = some (comps', fired) →
       (cbid ∈ fired ↔
         subscriptionMask (changedTypes comps h.1 (callback selected)) =
           subscriptionMask S) ∧
       ((∀ t ∈ changedTypes comps h.1 (callback selected), t < 32) →
        (∀ t ∈ S, t < 32) →
        (cbid ∈ fired ↔
          (∀ t, t ∈ changedTypes comps h.1 (callback selected) ↔ t ∈ S)))) ∧
    (∀ selected comps' fired,
       selectComponents comps h.1 componentsSelect = some selected →
       batchComponentsChange gens comps sigs h componentsSelect callback =
         some (comps', fired) →
       mget sigs (subscriptionMask (changedTypes comps h.1 (callback selected)))
         = none →
       fired = []) := by
  constructor
  · intro selected comps' fired hsel hbatch
    unfold batchComponentsChange at hbatch
    split at hbatch
    · simp only [hsel] at hbatch
      cases happ : applyBatchResults h.1 (callback selected) comps 0 [] with
      | none =>
        simp only [happ] at hbatch
        cases hbatch
      | some res =>
        obtain ⟨comps'', mask, ch⟩ := res
        simp only [happ] at hbatch
        have hmask : mask = subscriptionMask (changedTypes comps h.1 (callback selected)) :=
          applyBatchResults_mask h.1 (callback selected) comps 0 [] _ happ
        have hmain : cbid ∈ fired ↔
            subscriptionMask (changedTypes comps h.1 (callback selected)) =
              subscriptionMask S := by
          rw [← hmask]
          rw [mget_setSignal] at hbatch
          by_cases hms : mask = subscriptionMask S
          · simp only [if_pos hms] at hbatch
            injection hbatch with hbatch
            have hfired : fired = (mget sigs mask).getD [] ++ [cbid] := by
              have := congrArg Prod.snd hbatch
              exact this.symm
            constructor
            · intro _
              exact hms
            · intro _
              rw [hfired]
              exact List.mem_append_right _ (List.mem_singleton_self _)
          · rw [if_neg hms] at hbatch
            constructor
            · intro hmem
              exfalso
              cases hs : mget sigs mask with
              | none =>
                simp only [hs] at hbatch
                injection hbatch with hbatch
                have hfired : fired = [] := (congrArg Prod.snd hbatch).symm
                rw [hfired] at hmem
                cases hmem
              | some cbs =>
                simp only [hs] at hbatch
                injection hbatch with hbatch
                have hfired : fired = cbs := (congrArg Prod.snd hbatch).symm
                rw [hfired] at hmem
                exact hfresh mask cbs hs hmem
            · intro hms'
              exact absurd hms' hms
        refine ⟨hmain, ?_⟩
        intro hCbound hSbound
        rw [hmain]
        exact subscriptionMask_eq_iff_of_lt hCbound hSbound
    · cases hbatch
  · intro selected comps' fired hsel hbatch hnone
    unfold batchComponentsChange at hbatch
    split at hbatch
    · simp only [hsel] at hbatch
      cases happ : applyBatchResults h.1 (callback selected) comps 0 [] with
      | none =>
        simp only [happ] at hbatch
        cases hbatch
      | some res =>
        obtain ⟨comps'', mask, ch⟩ := res
        simp only [happ] at hbatch
        have hmask : mask = subscriptionMask (changedTypes comps h.1 (callback selected)) :=
          applyBatchResults_mask h.1 (callback selected) comps 0 [] _ happ
        rw [hmask, hnone] at hbatch
        simp only [] at hbatch
        injection hbatch with hbatch
        exact (congrArg Prod.snd hbatch).symm
    · cases hbatch

/-- Registry with entity 0 holding component types 1 (payload 10) and 2
(payload 20). -/
def c8Comps : List (Nat × Store Nat) :=
  [(1, ⟨[10], [(0, 0)], [(0, 0)]⟩), (2, ⟨[20], [(0, 0)], [(0, 0)]⟩)]

/-- A batch callback returning new payloads for both selected types. -/
def c8Callback : List (Option Nat) → List (Nat × Nat) :=
  fun _ => [(1, 11), (2, 21)]

/-- Witness for C8 at a concrete input: subscribing callback 7 for `{1, 2}`
and batch-changing exactly `{1, 2}` on entity `(0, 0)` fires it. -/
theorem batch_change_exact_mask_witness :
    7 ∈ ([7] : List Nat) ∧
    subscriptionMask (changedTypes c8Comps 0 (c8Callback [some 10, some 20])) =
      subscriptionMask [1, 2] := by
  have hm := (batch_change_exact_mask [(0, 0)] c8Comps [] (0, 0) [1, 2]
    c8Callback 7 [1, 2] (by intro m l hml; simp [mget] at hml)).1
    [some 10, some 20]
    [(1, ⟨[11], [(0, 0)], [(0, 0)]⟩), (2, ⟨[21], [(0, 0)], [(0, 0)]⟩)] [7]
    (by decide) (by decide)
  exact ⟨hm.1.mpr (by decide), by decide⟩

/-- Registry with entity 0 holding only component type 1 (payload 10). -/
def c8WrapComps : List (Nat × Store Nat) :=
  [(1, ⟨[10], [(0, 0)], [(0, 0)]⟩)]

/-- A batch callback returning a new payload for type 1 only. -/
def c8WrapCallback : List (Option Nat) → List (Nat × Nat) :=
  fun _ => [(1, 11)]

/-- C8 counterexample: the claim's never-fires-on-a-strict-subset clause
fails at the integer width. A subscriber (id 7) registered for the set
`{1, 33}` fires when a batch changes only `{1}` — a strict subset of
`{1, 33}` — because the source's 32-bit shift sends type id 33 to no bit
(`bit32.lshift(1, 33)` is 0), so the masks of `{1, 33}` and `{1}` are both
2 and the exact-mask lookup matches. -/
theorem batch_subset_fires_with_wrapped_mask :
    changedTypes c8WrapComps 0 (c8WrapCallback [some 10]) = [1] ∧
    (1 ∈ ([1, 33] : List Nat) ∧ (33 : Nat) ∉ ([1] : List Nat)) ∧
    subscriptionMask [1, 33] = subscriptionMask [1] ∧
    batchComponentsChange [(0, 0)] c8WrapComps
      (setComponentsChangedSignalCallback [] 7 [1, 33]) (0, 0) [1]
      c8WrapCallback =
      some ([(1, ⟨[11], [(0, 0)], [(0, 0)]⟩)], [7]) := by
  decide

end V2

end RblxECS
